import Mathlib

/-!
Verification development for the 0xDomainSnapshot collection-and-reconciliation
pipeline.  The Go source is shallowly embedded: the inventory tables become
lists of row structures, calendar dates become integer day indices, every
database call inside a transaction may be failed by an explicit oracle
(`DbOracle`), and a failed transaction rolls back to the pre-call store, which
models `BeginTx` / `defer tx.Rollback()` / `Commit` in
`internal/merger/merger.go`.
-/

namespace DomainSnapshot

/-- Replace the element at position `i` by `f` of it (the shape of a SQL
`UPDATE ... WHERE id = $i` against a list-modelled table). -/
def listModify (f : α → α) : Nat → List α → List α
  | _, [] => []
  | 0, a :: as => f a :: as
  | n + 1, a :: as => a :: listModify f n as

/-- Index of the first element satisfying `p`, the model of
`SELECT id ... LIMIT`-style row lookup. -/
def lookupIdx (p : α → Bool) : List α → Option Nat
  | [] => none
  | a :: as => if p a then some 0 else (lookupIdx p as).map (· + 1)

/-! ## Data model

Dates (`DATE` columns, Go `"2006-01-02"` strings) are integer day indices;
comparing them with `<` matches SQL date comparison.  Raw JSON payloads are
opaque `Option String` values (`json.Marshal` output, `nil` when absent). -/

/-- Input to `MergeDomains`: the fields of `collector.Domain` the merger reads
(`d.Domain`, `d.ExpiryDate`, `d.RawData`). -/
structure GoDomain where
  domain : String
  expiryDate : Option Int
  rawData : Option String
deriving DecidableEq, Repr

/-- A row of the `domains` table. -/
structure DomainRow where
  domain : String
  registrar : String
  status : String
  expiryDate : Option Int
  discoveryDate : Int
  lastSeen : Int
  rawData : Option String
deriving DecidableEq, Repr

abbrev DomainStore := List DomainRow

/-- Input to `MergeDNSRecords`: the fields of `collector.DNSRecord` the merger
reads. -/
structure GoDNSRecord where
  domain : String
  subdomain : String
  recordType : String
  data : String
  ttl : Int
  priority : Int
  rawData : Option String
deriving DecidableEq, Repr

/-- A row of the `dns_records` table. -/
structure DNSRow where
  domain : String
  subdomain : String
  recordType : String
  data : String
  ttl : Int
  priority : Int
  source : String
  status : String
  discoveryDate : Int
  lastSeen : Int
  rawData : Option String
deriving DecidableEq, Repr

abbrev DNSStore := List DNSRow

/-- `MergeStats` of `merger.go`. -/
structure MergeStats where
  added : Nat
  updated : Nat
  removed : Nat
deriving DecidableEq, Repr

/-- Failure oracle for the database calls inside a merge transaction: `true`
at `n` means the `n`-th database operation of the call returns an error. -/
abbrev DbOracle := Nat → Bool

/-- The oracle under which no database operation fails. -/
def okOracle : DbOracle := fun _ => false

/-! ## MergeDomains (merger.go lines 34-108) -/

/-- The `SELECT id FROM domains WHERE domain = $1 AND registrar = $2`
predicate. -/
def domMatch (source : String) (d : GoDomain) (r : DomainRow) : Bool :=
  r.domain == d.domain && r.registrar == source

/-- The `INSERT INTO domains ... VALUES ($1,$2,'active',$3,$4,$4,$5)` row. -/
def newDomainRow (source : String) (today : Int) (d : GoDomain) : DomainRow :=
  { domain := d.domain, registrar := source, status := "active",
    expiryDate := d.expiryDate, discoveryDate := today, lastSeen := today,
    rawData := d.rawData }

/-- The `UPDATE domains SET status='active', expiry_date=$1, last_seen=$2,
raw_data=$3 WHERE id=$4` applied to the existing row (discovery_date is not in
the SET list). -/
def applyDomainUpdate (today : Int) (d : GoDomain) (r : DomainRow) : DomainRow :=
  { r with
      status := "active"
      expiryDate := d.expiryDate
      lastSeen := today
      rawData := d.rawData }

/-- Per-item loop of `MergeDomains`, threading the transaction store, the
stats, and the database-operation counter; any failed operation aborts the
transaction. -/
def mergeDomainsLoop (oracle : DbOracle) (source : String) (today : Int) :
    List GoDomain → Nat → DomainStore → MergeStats →
    Except Unit (DomainStore × MergeStats × Nat)
  | [], n, st, stats => .ok (st, stats, n)
  | d :: ds, n, st, stats =>
    if oracle n then .error () else
    match lookupIdx (domMatch source d) st with
    | none =>
      if oracle (n + 1) then .error () else
      mergeDomainsLoop oracle source today ds (n + 2)
        (st ++ [newDomainRow source today d])
        { stats with added := stats.added + 1 }
    | some i =>
      if oracle (n + 1) then .error () else
      mergeDomainsLoop oracle source today ds (n + 2)
        (listModify (applyDomainUpdate today d) i st)
        { stats with updated := stats.updated + 1 }

/-- One domain row after the tombstone
`UPDATE domains SET status='removed' WHERE registrar=$1 AND status='active'
AND last_seen < $2`. -/
def domainTombstone (source : String) (today : Int) (r : DomainRow) : DomainRow :=
  if r.registrar = source ∧ r.status = "active" ∧ r.lastSeen < today then
    { r with status := "removed" }
  else r

/-- `RowsAffected` of the domain tombstone update. -/
def domainTombstoneCount (source : String) (today : Int) (st : DomainStore) : Nat :=
  (st.filter fun r =>
    r.registrar == source && r.status == "active" && decide (r.lastSeen < today)).length

/-- `MergeDomains` (merger.go lines 34-108).  Returns the result of the call
together with the database state visible afterwards: on any failed operation
the deferred rollback leaves the pre-call store, on a successful commit the
transaction store becomes visible. -/
def mergeDomains (oracle : DbOracle) (source : String) (today : Int)
    (domains : List GoDomain) (store : DomainStore) :
    Except Unit (DomainStore × MergeStats) × DomainStore :=
  if oracle 0 then (.error (), store) else
  match mergeDomainsLoop oracle source today domains 1 store ⟨0, 0, 0⟩ with
  | .error () => (.error (), store)
  | .ok (st, stats, n) =>
    if oracle n then (.error (), store) else
    let st2 := st.map (domainTombstone source today)
    let stats2 := { stats with removed := domainTombstoneCount source today st }
    if oracle (n + 1) then (.error (), store) else
    (.ok (st2, stats2), st2)

/-! ## MergeDNSRecords (merger.go lines 114-192) -/

/-- The `SELECT id FROM dns_records WHERE domain=$1 AND subdomain=$2 AND
record_type=$3 AND data=$4 AND source=$5` predicate (the signature lookup). -/
def dnsMatch (source : String) (x : GoDNSRecord) (r : DNSRow) : Bool :=
  r.domain == x.domain && r.subdomain == x.subdomain &&
  r.recordType == x.recordType && r.data == x.data && r.source == source

/-- The `INSERT INTO dns_records ... VALUES (..., 'active', $8, $8, $9)` row. -/
def newDNSRow (source : String) (today : Int) (x : GoDNSRecord) : DNSRow :=
  { domain := x.domain, subdomain := x.subdomain, recordType := x.recordType,
    data := x.data, ttl := x.ttl, priority := x.priority, source := source,
    status := "active", discoveryDate := today, lastSeen := today,
    rawData := x.rawData }

/-- The `UPDATE dns_records SET status='active', ttl=$1, priority=$2,
last_seen=$3, raw_data=$4 WHERE id=$5` applied to the existing row
(discovery_date is not in the SET list). -/
def applyDNSUpdate (today : Int) (x : GoDNSRecord) (r : DNSRow) : DNSRow :=
  { r with
      status := "active"
      ttl := x.ttl
      priority := x.priority
      lastSeen := today
      rawData := x.rawData }

/-- Per-record loop of `MergeDNSRecords`. -/
def mergeDNSLoop (oracle : DbOracle) (source : String) (today : Int) :
    List GoDNSRecord → Nat → DNSStore → MergeStats →
    Except Unit (DNSStore × MergeStats × Nat)
  | [], n, st, stats => .ok (st, stats, n)
  | x :: xs, n, st, stats =>
    if oracle n then .error () else
    match lookupIdx (dnsMatch source x) st with
    | none =>
      if oracle (n + 1) then .error () else
      mergeDNSLoop oracle source today xs (n + 2)
        (st ++ [newDNSRow source today x])
        { stats with added := stats.added + 1 }
    | some i =>
      if oracle (n + 1) then .error () else
      mergeDNSLoop oracle source today xs (n + 2)
        (listModify (applyDNSUpdate today x) i st)
        { stats with updated := stats.updated + 1 }

/-- The `seenDomains` map of `MergeDNSRecords`, as the batch's parent domains
in first-occurrence order. -/
def seenDomainsOf (records : List GoDNSRecord) : List String :=
  records.foldl (fun acc r => if r.domain ∈ acc then acc else acc ++ [r.domain]) []

/-- One DNS row after the per-domain tombstone `UPDATE dns_records SET
status='removed' WHERE source=$1 AND domain=$2 AND status='active' AND
last_seen < $3`. -/
def dnsTombstone (source dom : String) (today : Int) (r : DNSRow) : DNSRow :=
  if r.source = source ∧ r.domain = dom ∧ r.status = "active" ∧ r.lastSeen < today then
    { r with status := "removed" }
  else r

/-- `RowsAffected` of one per-domain DNS tombstone update. -/
def dnsTombstoneCount (source dom : String) (today : Int) (st : DNSStore) : Nat :=
  (st.filter fun r =>
    r.source == source && r.domain == dom && r.status == "active" &&
    decide (r.lastSeen < today)).length

/-- The `for domain := range seenDomains` tombstone loop, one database
operation per seen domain. -/
def dnsTombstoneLoop (oracle : DbOracle) (source : String) (today : Int) :
    List String → Nat → DNSStore → Nat → Except Unit (DNSStore × Nat × Nat)
  | [], n, st, removed => .ok (st, removed, n)
  | dom :: rest, n, st, removed =>
    if oracle n then .error () else
    dnsTombstoneLoop oracle source today rest (n + 1)
      (st.map (dnsTombstone source dom today))
      (removed + dnsTombstoneCount source dom today st)

/-- `MergeDNSRecords` (merger.go lines 114-192), with the same
transaction/rollback modelling as `mergeDomains`. -/
def mergeDNSRecords (oracle : DbOracle) (source : String) (today : Int)
    (records : List GoDNSRecord) (store : DNSStore) :
    Except Unit (DNSStore × MergeStats) × DNSStore :=
  if oracle 0 then (.error (), store) else
  match mergeDNSLoop oracle source today records 1 store ⟨0, 0, 0⟩ with
  | .error () => (.error (), store)
  | .ok (st, stats, n) =>
    match dnsTombstoneLoop oracle source today (seenDomainsOf records) n st 0 with
    | .error () => (.error (), store)
    | .ok (st2, removed, n2) =>
      if oracle n2 then (.error (), store) else
      (.ok (st2, { stats with removed := removed }), st2)

/-! ## Pure (no-failure) runs

The loops above, specialised to runs in which no database call fails.  The
lemmas `mergeDomainsLoop_ok` and friends show that any successful run of the
oracle version computes exactly these. -/

def mergeDomainsLoopP (source : String) (today : Int) :
    List GoDomain → DomainStore → MergeStats → DomainStore × MergeStats
  | [], st, stats => (st, stats)
  | d :: ds, st, stats =>
    match lookupIdx (domMatch source d) st with
    | none =>
      mergeDomainsLoopP source today ds (st ++ [newDomainRow source today d])
        { stats with added := stats.added + 1 }
    | some i =>
      mergeDomainsLoopP source today ds (listModify (applyDomainUpdate today d) i st)
        { stats with updated := stats.updated + 1 }

def mergeDNSLoopP (source : String) (today : Int) :
    List GoDNSRecord → DNSStore → MergeStats → DNSStore × MergeStats
  | [], st, stats => (st, stats)
  | x :: xs, st, stats =>
    match lookupIdx (dnsMatch source x) st with
    | none =>
      mergeDNSLoopP source today xs (st ++ [newDNSRow source today x])
        { stats with added := stats.added + 1 }
    | some i =>
      mergeDNSLoopP source today xs (listModify (applyDNSUpdate today x) i st)
        { stats with updated := stats.updated + 1 }

def dnsTombstoneLoopP (source : String) (today : Int) :
    List String → DNSStore → Nat → DNSStore × Nat
  | [], st, removed => (st, removed)
  | dom :: rest, st, removed =>
    dnsTombstoneLoopP source today rest (st.map (dnsTombstone source dom today))
      (removed + dnsTombstoneCount source dom today st)

/-- The committed result of a fully successful `MergeDomains` run. -/
def mergeDomainsP (source : String) (today : Int) (domains : List GoDomain)
    (store : DomainStore) : DomainStore × MergeStats :=
  let r := mergeDomainsLoopP source today domains store ⟨0, 0, 0⟩
  (r.1.map (domainTombstone source today),
    { r.2 with removed := domainTombstoneCount source today r.1 })

/-- The committed result of a fully successful `MergeDNSRecords` run. -/
def mergeDNSRecordsP (source : String) (today : Int) (records : List GoDNSRecord)
    (store : DNSStore) : DNSStore × MergeStats :=
  let r := mergeDNSLoopP source today records store ⟨0, 0, 0⟩
  let t := dnsTombstoneLoopP source today (seenDomainsOf records) r.1 0
  (t.1, { r.2 with removed := t.2 })

/-- At most one row per `(domain, registrar)` identity: the store-level
`UNIQUE(domain, registrar)` constraint of the `domains` table. -/
def domStoreUnique (st : DomainStore) : Prop :=
  ∀ (k₁ k₂ : Nat) (r₁ r₂ : DomainRow), st[k₁]? = some r₁ → st[k₂]? = some r₂ →
    r₁.domain = r₂.domain → r₁.registrar = r₂.registrar → k₁ = k₂

/-- Exactly one row matches `(d.domain, source)`, and that row is active with
`last_seen = today`. -/
def domHasExactlyOne (source : String) (today : Int) (d : GoDomain)
    (st : DomainStore) : Prop :=
  ∃ (j : Nat) (rj : DomainRow), st[j]? = some rj ∧ domMatch source d rj = true ∧
    rj.status = "active" ∧ rj.lastSeen = today ∧
    ∀ (k : Nat) (rk : DomainRow), st[k]? = some rk → domMatch source d rk = true → k = j

/-! ## DNS tombstone sweep characterisation -/

/-- The effect of the whole per-domain tombstone loop on one row. -/
def tombFold (source : String) (today : Int) (doms : List String) (r : DNSRow) : DNSRow :=
  doms.foldl (fun r dom => dnsTombstone source dom today r) r

/-! ## Clock model (merger.go lines 43 and 123)

`time.Now().Format("2006-01-02")` renders the wall clock in the process's
local time zone.  A clock reading is an absolute unix second together with the
zone offset; a calendar date is its day index (dates are equal iff day indices
are equal). -/

structure GoClock where
  unixSec : Int
  tzOffsetSec : Int
deriving DecidableEq, Repr

/-- The day stamped by `time.Now().Format("2006-01-02")`: the local calendar
day. -/
def goTodayLocal (c : GoClock) : Int := (c.unixSec + c.tzOffsetSec).fdiv 86400

/-- The UTC calendar day of the same instant. -/
def utcToday (c : GoClock) : Int := c.unixSec.fdiv 86400

/-- `MergeDomains` with `today := time.Now().Format(...)` captured once at
line 43. -/
def mergeDomainsAt (oracle : DbOracle) (c : GoClock) (source : String)
    (domains : List GoDomain) (store : DomainStore) :
    Except Unit (DomainStore × MergeStats) × DomainStore :=
  mergeDomains oracle source (goTodayLocal c) domains store

/-- `MergeDNSRecords` with `today` captured once at line 123. -/
def mergeDNSRecordsAt (oracle : DbOracle) (c : GoClock) (source : String)
    (records : List GoDNSRecord) (store : DNSStore) :
    Except Unit (DNSStore × MergeStats) × DNSStore :=
  mergeDNSRecords oracle source (goTodayLocal c) records store

/-! ## Sync orchestrator (service.RunCollector) and scheduler release status -/

/-- `collector.CollectorResult` as the orchestrator consumes it: the collected
domains and DNS records (projected onto the fields the merger reads) and the
fatal error, if any. -/
structure CollectResult where
  domains : List GoDomain
  dnsRecords : List GoDNSRecord
  collectErr : Option String
deriving DecidableEq, Repr

/-- `service.SyncStats`. -/
structure SyncStats where
  found : Nat
  added : Nat
  updated : Nat
  removed : Nat
deriving DecidableEq, Repr

/-- `SyncService.RunCollector` after `Collect` returned `res`: merge domains
if any were collected, then merge DNS records if any were collected; returns
the overall error, both stores, and the stats. -/
def runCollectorService (oD oR : DbOracle) (source : String) (today : Int)
    (res : CollectResult) (domStore : DomainStore) (dnsStore : DNSStore) :
    Option String × DomainStore × DNSStore × SyncStats :=
  match res.collectErr with
  | some e => (some e, domStore, dnsStore, ⟨0, 0, 0, 0⟩)
  | none =>
    let found := res.domains.length + res.dnsRecords.length
    if res.domains.length > 0 then
      match mergeDomains oD source today res.domains domStore with
      | (.error _, post) => (some "merge domains", post, dnsStore, ⟨found, 0, 0, 0⟩)
      | (.ok (_, s1), post) =>
        if res.dnsRecords.length > 0 then
          match mergeDNSRecords oR source today res.dnsRecords dnsStore with
          | (.error _, post2) =>
            (some "merge DNS records", post, post2,
              ⟨found, s1.added, s1.updated, s1.removed⟩)
          | (.ok (_, s2), post2) =>
            (none, post, post2,
              ⟨found, s1.added + s2.added, s1.updated + s2.updated,
                s1.removed + s2.removed⟩)
        else (none, post, dnsStore, ⟨found, s1.added, s1.updated, s1.removed⟩)
    else
      if res.dnsRecords.length > 0 then
        match mergeDNSRecords oR source today res.dnsRecords dnsStore with
        | (.error _, post2) =>
          (some "merge DNS records", domStore, post2, ⟨found, 0, 0, 0⟩)
        | (.ok (_, s2), post2) =>
          (none, domStore, post2, ⟨found, s2.added, s2.updated, s2.removed⟩)
      else (none, domStore, dnsStore, ⟨found, 0, 0, 0⟩)

/-- `SyncLock.Release`: the status written into the Sync Run row, from the
orchestrator's overall error. -/
def schedulerRunStatus (syncErr : Option String) : String :=
  if syncErr.isSome then "failed" else "completed"

/-! ## GoDaddy per-domain record sweep (godaddy.go Collect, lines 89-131) -/

/-- What one `fetchDNSRecords(ctx, domain)` call can produce, as classified by
`httpclient.IsQuotaExceeded` / `IsNotFound` / other. -/
inductive FetchRes where
  | ok (records : List GoDNSRecord)
  | quotaExceeded
  | notFound
  | otherErr
deriving DecidableEq, Repr

/-- The per-domain record loop of `Collect`: on quota stop enumerating, on
not-found or other errors skip the domain and continue. -/
def fetchRecordsLoop (fetch : String → FetchRes) : List String → List GoDNSRecord
  | [] => []
  | d :: ds =>
    match fetch d with
    | .ok recs => recs ++ fetchRecordsLoop fetch ds
    | .quotaExceeded => []
    | .notFound => fetchRecordsLoop fetch ds
    | .otherErr => fetchRecordsLoop fetch ds

/-- `Collect` after `fetchAllDomains` succeeded with `doms`: all domains are
returned, records are gathered per domain, and the function returns `nil`
error (also on quota). -/
def goDaddyCollectRecords (fetch : String → FetchRes) (doms : List GoDomain) :
    CollectResult :=
  { domains := doms,
    dnsRecords := fetchRecordsLoop fetch (doms.map (·.domain)),
    collectErr := none }

/-! ## HTTP fetch client retry loop (httpclient DoWithRetry) -/

/-- An HTTP attempt outcome as the retry loop sees it: transport/read failure,
or a response with its status code and whether the body contains
`TOO_MANY_REQUESTS` / `QUOTA_EXCEEDED`. -/
inductive HttpResp where
  | netErr
  | resp (status : Nat) (body429 : Bool) (bodyQuota : Bool)
deriving DecidableEq, Repr

inductive HErr where
  | transport
  | rateLimited
  | quotaExceeded
  | notFound
  | httpStatus (code : Nat)
deriving DecidableEq, Repr

inductive RetryErr where
  | maxedOut (last : Option HErr)
  | fatal (e : HErr)
deriving DecidableEq, Repr

inductive AttemptOutcome where
  | success
  | giveUp (e : HErr)
  | retryOn (e : HErr) (sleep429 : Bool)
deriving DecidableEq, Repr

/-- One response classified in the order `DoWithRetry` checks: transport error
retries; 429 or `TOO_MANY_REQUESTS` body sleeps `SleepOn429` and retries;
`QUOTA_EXCEEDED` body fails immediately; 404 fails immediately; 2xx succeeds;
other 4xx fails immediately; 5xx retries. -/
def classifyResp : HttpResp → AttemptOutcome
  | .netErr => .retryOn .transport false
  | .resp status body429 bodyQuota =>
    if status = 429 ∨ body429 = true then .retryOn .rateLimited true
    else if bodyQuota = true then .giveUp .quotaExceeded
    else if status = 404 then .giveUp .notFound
    else if 200 ≤ status ∧ status < 300 then .success
    else if 400 ≤ status ∧ status < 500 then .giveUp (.httpStatus status)
    else .retryOn (.httpStatus status) false

/-- Result of a `DoWithRetry` call: the outcome, the number of HTTP attempts
made, and the number of `SleepOn429` sleeps taken. -/
structure RetryRun where
  result : Except RetryErr Unit
  attempts : Nat
  sleeps429 : Nat
deriving Repr

/-- The `for attempt := 0; attempt <= MaxRetries; attempt++` loop: `i` is the
next attempt index, `fuel` the remaining loop iterations. -/
def retryGo (oracle : Nat → HttpResp) : Nat → Nat → Option HErr → Nat → RetryRun
  | i, 0, lastErr, sl => ⟨.error (.maxedOut lastErr), i, sl⟩
  | i, fuel + 1, _, sl =>
    match classifyResp (oracle i) with
    | .success => ⟨.ok (), i + 1, sl⟩
    | .giveUp e => ⟨.error (.fatal e), i + 1, sl⟩
    | .retryOn e s => retryGo oracle (i + 1) fuel (some e) (sl + if s then 1 else 0)

/-- `DoWithRetry` with the `n`-th attempt answered by `oracle n`. -/
def doWithRetry (maxRetries : Nat) (oracle : Nat → HttpResp) : RetryRun :=
  retryGo oracle 0 (maxRetries + 1) none 0

/-! ## Sync Run lock (scheduler/lock.go TryAcquire) and schema indexes -/

/-- A row of the `sync_status` table (the fields `TryAcquire` writes). -/
structure SyncRow where
  id : Nat
  collectorName : String
  serviceType : String
  status : String
  triggerType : String
deriving DecidableEq, Repr

/-- The `SELECT id FROM sync_status WHERE collector_name = $1 AND status =
'running'` check: does a running row exist? -/
def hasRunning (tbl : List SyncRow) (name : String) : Bool :=
  tbl.any fun r => r.collectorName == name && r.status == "running"

/-- The `(syncID, acquired, error)` triple `TryAcquire` returns. -/
structure AcquireResult where
  syncId : Option Nat
  acquired : Bool
  errMsg : Option String
deriving DecidableEq, Repr

/-- `TryAcquire` (lock.go lines 45-84): non-blocking in-memory mutex, then the
running-row check, then the INSERT.  `selectFails` / `insertFails` model the
corresponding database calls failing. -/
def tryAcquire (memLockHeld selectFails insertFails : Bool)
    (name serviceType triggerType : String) (newId : Nat)
    (tbl : List SyncRow) : AcquireResult × List SyncRow :=
  if memLockHeld then (⟨none, false, none⟩, tbl)
  else if selectFails then (⟨none, false, some "check running sync"⟩, tbl)
  else if hasRunning tbl name then (⟨none, false, none⟩, tbl)
  else if insertFails then (⟨none, false, some "create sync record"⟩, tbl)
  else (⟨some newId, true, none⟩,
    tbl ++ [{ id := newId, collectorName := name, serviceType := serviceType,
              status := "running", triggerType := triggerType }])

/-- Number of running rows for a collector. -/
def runningCount (tbl : List SyncRow) (name : String) : Nat :=
  tbl.countP fun r => r.collectorName == name && r.status == "running"

/-- A uniqueness constraint declared by `migrationSQL` (PRIMARY KEY or
UNIQUE). -/
structure SqlUniqueConstraint where
  tableName : String
  columns : List String
  filterCond : Option String
deriving DecidableEq, Repr

/-- A `CREATE INDEX` statement of `migrationSQL`. -/
structure SqlIndex where
  indexName : String
  tableName : String
  columns : List String
  isUnique : Bool
  filterCond : Option String
deriving DecidableEq, Repr

/-- Every uniqueness constraint in `001_initial_schema.up.sql`. -/
def migrationUniqueConstraints : List SqlUniqueConstraint :=
  [⟨"domains", ["id"], none⟩,
   ⟨"domains", ["domain", "registrar"], none⟩,
   ⟨"dns_records", ["id"], none⟩,
   ⟨"dns_records", ["domain", "subdomain", "record_type", "data", "source"], none⟩,
   ⟨"sync_status", ["id"], none⟩]

/-- Every `CREATE INDEX` in `001_initial_schema.up.sql`; none is UNIQUE and
none has a WHERE clause. -/
def migrationIndexes : List SqlIndex :=
  [⟨"idx_domains_status", "domains", ["status"], false, none⟩,
   ⟨"idx_domains_registrar", "domains", ["registrar"], false, none⟩,
   ⟨"idx_domains_last_seen", "domains", ["last_seen"], false, none⟩,
   ⟨"idx_dns_records_domain", "dns_records", ["domain"], false, none⟩,
   ⟨"idx_dns_records_status", "dns_records", ["status"], false, none⟩,
   ⟨"idx_dns_records_source", "dns_records", ["source"], false, none⟩,
   ⟨"idx_dns_records_type", "dns_records", ["record_type"], false, none⟩,
   ⟨"idx_dns_records_last_seen", "dns_records", ["last_seen"], false, none⟩,
   ⟨"idx_sync_status_collector", "sync_status", ["collector_name"], false, none⟩,
   ⟨"idx_sync_status_status", "sync_status", ["status"], false, none⟩,
   ⟨"idx_sync_status_started", "sync_status", ["started_at"], false, none⟩]

/-! ## GoDaddy domain pagination (godaddy.go fetchAllDomains) and filters -/

/-- ASCII fragment of Go `unicode.IsSpace`, as used by `strings.TrimSpace`. -/
def goIsSpace (c : Char) : Bool :=
  c = ' ' || c = '\t' || c = '\n' || c = '\x0B' || c = '\x0C' || c = '\r'

/-- Go `strings.TrimSpace` on ASCII strings. -/
def goTrimSpace (s : String) : String :=
  String.mk (((s.data.dropWhile goIsSpace).reverse.dropWhile goIsSpace).reverse)

/-- Go `strings.ToLower` on ASCII strings. -/
def goToLower (s : String) : String :=
  String.mk (s.data.map Char.toLower)

/-- Go `strings.HasPrefix`. -/
def goStartsWith (s p : String) : Bool :=
  s.data.take p.data.length == p.data

/-- The `testDomains` blocklist of utils (exact matches). -/
def testDomainList : List String :=
  ["example.com", "example.org", "example.net", "test.com", "test.org",
   "test.net", "domain.com", "domain.org", "domain.net", "localhost",
   "invalid", "example", "test", "local", "internal", "localdomain"]

/-- The test name-beginnings list of utils. -/
def testMarkerList : List String :=
  ["test-", "test.", "example-", "example.", "demo-", "demo.", "staging-", "dev-"]

/-- `IsTestDomain`: lowercase and trim, then exact-match the blocklist or any
listed beginning. -/
def goIsTestDomain (domain : String) : Bool :=
  let d := goToLower (goTrimSpace domain)
  testDomainList.contains d || testMarkerList.any (fun p => goStartsWith d p)

/-- One JSON object of a `/v1/domains` page: the `"domain"` field (absent or
non-string modelled as `none`) and the optional parsed expiry. -/
structure GoDomEntry where
  name : Option String
  expires : Option Int
deriving DecidableEq, Repr

/-- The `godaddyDomain` values accumulated in `allDomains`. -/
structure GDomainInfo where
  domain : String
  expires : Option Int
deriving DecidableEq, Repr

/-- Processing one page entry: skip missing/empty names, skip names already
`seen` (recording into `seen` happens before the test-domain check), skip test
domains, otherwise append to `allDomains`. -/
def pageStep (st : List String × List GDomainInfo) (e : GoDomEntry) :
    List String × List GDomainInfo :=
  match e.name with
  | none => st
  | some nm =>
    if nm = "" then st
    else if st.1.contains nm then st
    else
      let seen2 := st.1 ++ [nm]
      if goIsTestDomain nm then (seen2, st.2)
      else (seen2, st.2 ++ [{ domain := nm, expires := e.expires }])

/-- The `for _, d := range domains` body of `fetchAllDomains`. -/
def processPage (seen : List String) (acc : List GDomainInfo)
    (page : List GoDomEntry) : List String × List GDomainInfo :=
  page.foldl pageStep (seen, acc)

/-- `fetchAllDomains` run against the sequence of pages the upstream returns
to successive requests.  On success: the accumulated domains, the marker sent
for each follow-up request (`allDomains[len(allDomains)-1].domain`), and
whether the loop terminated via a short or empty page.  When a full page
leaves the accumulator empty, the marker index access
`allDomains[len(allDomains)-1]` is out of range and the Go program panics:
`.error ()`. -/
def fetchAllDomainsGo (limit : Nat) :
    List (List GoDomEntry) → List String → List GDomainInfo →
    Except Unit (List GDomainInfo × List (Option String) × Bool)
  | [], _, acc => .ok (acc, [], false)
  | page :: rest, seen, acc =>
    if page.length = 0 then .ok (acc, [], true)
    else
      let s2 := processPage seen acc page
      if page.length < limit then .ok (s2.2, [], true)
      else
        match s2.2.getLast? with
        | none => .error ()
        | some last =>
          match fetchAllDomainsGo limit rest s2.1 s2.2 with
          | .error e => .error e
          | .ok r => .ok (r.1, some last.domain :: r.2.1, r.2.2)

/-- Modelled from the spec: "an opaque marker equal to the last domain on the
previous page" — for each full page, the marker for the next request is the
name of the final entry of that page. -/
def markersPerSpec (limit : Nat) : List (List GoDomEntry) → List (Option String)
  | [] => []
  | page :: rest =>
    if page.length = 0 then []
    else if page.length < limit then []
    else ((page.getLast?).bind (·.name)) :: markersPerSpec limit rest

/-! ## Theorems -/

theorem listModify_length (f : α → α) (i : Nat) (l : List α) :
    (listModify f i l).length = l.length := by
  induction l generalizing i with
  | nil => cases i <;> rfl
  | cons a as ih =>
    cases i with
    | zero => rfl
    | succ n => simpa [listModify] using ih n

theorem listModify_getElem? (f : α → α) (i : Nat) (l : List α) (j : Nat) :
    (listModify f i l)[j]? =
      if i = j then (l[j]?).map f else l[j]? := by
  induction l generalizing i j with
  | nil => simp [listModify]
  | cons a as ih =>
    cases i with
    | zero =>
      cases j with
      | zero => simp [listModify]
      | succ m => simp [listModify]
    | succ n =>
      cases j with
      | zero => simp [listModify]
      | succ m =>
        simp only [listModify, List.getElem?_cons_succ]
        rw [ih n m]
        by_cases h : n = m
        · simp [h]
        · simp [h, fun hc => h (Nat.succ_injective hc)]

theorem lookupIdx_eq_none (p : α → Bool) (l : List α) :
    lookupIdx p l = none ↔ ∀ a ∈ l, p a = false := by
  induction l with
  | nil => simp [lookupIdx]
  | cons a as ih =>
    cases hp : p a with
    | true => simp [lookupIdx, hp, List.forall_mem_cons]
    | false => simp [lookupIdx, hp, List.forall_mem_cons, ih]

theorem lookupIdx_eq_some (p : α → Bool) (l : List α) (i : Nat)
    (h : lookupIdx p l = some i) :
    ∃ a, l[i]? = some a ∧ p a = true := by
  induction l generalizing i with
  | nil => simp [lookupIdx] at h
  | cons a as ih =>
    cases hp : p a with
    | true =>
      simp only [lookupIdx, hp, if_true, Option.some.injEq] at h
      exact ⟨a, by simp [← h], hp⟩
    | false =>
      simp only [lookupIdx, hp, Bool.false_eq_true, if_false,
        Option.map_eq_some'] at h
      obtain ⟨j, hj, rfl⟩ := h
      obtain ⟨b, hb, hpb⟩ := ih j hj
      exact ⟨b, by simpa using hb, hpb⟩

theorem mergeDomainsLoop_ok (oracle : DbOracle) (source : String) (today : Int)
    (ds : List GoDomain) (n : Nat) (st : DomainStore) (stats : MergeStats)
    (st' : DomainStore) (stats' : MergeStats) (n' : Nat)
    (h : mergeDomainsLoop oracle source today ds n st stats = .ok (st', stats', n')) :
    (st', stats') = mergeDomainsLoopP source today ds st stats := by
  induction ds generalizing n st stats with
  | nil =>
    simp only [mergeDomainsLoop, Except.ok.injEq, Prod.mk.injEq] at h
    simp [mergeDomainsLoopP, h.1, h.2.1]
  | cons d ds ih =>
    rw [mergeDomainsLoop] at h
    by_cases h0 : oracle n
    · simp [h0] at h
    · simp only [h0, if_false] at h
      rcases hl : lookupIdx (domMatch source d) st with _ | i <;> rw [hl] at h
      · by_cases h1 : oracle (n + 1)
        · simp [h1] at h
        · simp only [h1, if_false] at h
          rw [mergeDomainsLoopP, hl]
          exact ih _ _ _ h
      · by_cases h1 : oracle (n + 1)
        · simp [h1] at h
        · simp only [h1, if_false] at h
          rw [mergeDomainsLoopP, hl]
          exact ih _ _ _ h

theorem mergeDNSLoop_ok (oracle : DbOracle) (source : String) (today : Int)
    (xs : List GoDNSRecord) (n : Nat) (st : DNSStore) (stats : MergeStats)
    (st' : DNSStore) (stats' : MergeStats) (n' : Nat)
    (h : mergeDNSLoop oracle source today xs n st stats = .ok (st', stats', n')) :
    (st', stats') = mergeDNSLoopP source today xs st stats := by
  induction xs generalizing n st stats with
  | nil =>
    simp only [mergeDNSLoop, Except.ok.injEq, Prod.mk.injEq] at h
    simp [mergeDNSLoopP, h.1, h.2.1]
  | cons x xs ih =>
    rw [mergeDNSLoop] at h
    by_cases h0 : oracle n
    · simp [h0] at h
    · simp only [h0, if_false] at h
      rcases hl : lookupIdx (dnsMatch source x) st with _ | i <;> rw [hl] at h
      · by_cases h1 : oracle (n + 1)
        · simp [h1] at h
        · simp only [h1, if_false] at h
          rw [mergeDNSLoopP, hl]
          exact ih _ _ _ h
      · by_cases h1 : oracle (n + 1)
        · simp [h1] at h
        · simp only [h1, if_false] at h
          rw [mergeDNSLoopP, hl]
          exact ih _ _ _ h

theorem dnsTombstoneLoop_ok (oracle : DbOracle) (source : String) (today : Int)
    (doms : List String) (n : Nat) (st : DNSStore) (removed : Nat)
    (st' : DNSStore) (removed' : Nat) (n' : Nat)
    (h : dnsTombstoneLoop oracle source today doms n st removed = .ok (st', removed', n')) :
    (st', removed') = dnsTombstoneLoopP source today doms st removed := by
  induction doms generalizing n st removed with
  | nil =>
    simp only [dnsTombstoneLoop, Except.ok.injEq, Prod.mk.injEq] at h
    simp [dnsTombstoneLoopP, h.1, h.2.1]
  | cons dom rest ih =>
    rw [dnsTombstoneLoop] at h
    by_cases h0 : oracle n
    · simp [h0] at h
    · simp only [h0, if_false] at h
      rw [dnsTombstoneLoopP]
      exact ih _ _ _ h

theorem mergeDomains_error (oracle : DbOracle) (source : String) (today : Int)
    (domains : List GoDomain) (store : DomainStore) (e : Unit) (post : DomainStore)
    (h : mergeDomains oracle source today domains store = (.error e, post)) :
    post = store := by
  rw [mergeDomains] at h
  by_cases h0 : oracle 0
  · simp [h0] at h; exact h.symm
  · simp only [h0, if_false] at h
    rcases hl : mergeDomainsLoop oracle source today domains 1 store ⟨0, 0, 0⟩ with _ | ⟨st, stats, n⟩ <;>
      rw [hl] at h
    · simp at h; exact h.symm
    · by_cases hn : oracle n
      · simp [hn] at h; exact h.symm
      · simp only [hn, if_false] at h
        by_cases hc : oracle (n + 1)
        · simp [hc] at h; exact h.symm
        · simp [hc] at h

theorem mergeDomains_ok (oracle : DbOracle) (source : String) (today : Int)
    (domains : List GoDomain) (store : DomainStore) (res : DomainStore × MergeStats)
    (post : DomainStore)
    (h : mergeDomains oracle source today domains store = (.ok res, post)) :
    res = mergeDomainsP source today domains store ∧ post = res.1 := by
  rw [mergeDomains] at h
  by_cases h0 : oracle 0
  · simp [h0] at h
  · simp only [h0, if_false] at h
    rcases hl : mergeDomainsLoop oracle source today domains 1 store ⟨0, 0, 0⟩ with _ | ⟨st, stats, n⟩ <;>
      rw [hl] at h
    · simp at h
    · by_cases hn : oracle n
      · simp [hn] at h
      · by_cases hc : oracle (n + 1)
        · simp [hn, hc] at h
        · simp only [hn, hc, Bool.false_eq_true, if_false, Prod.mk.injEq,
            Except.ok.injEq] at h
          have hp := mergeDomainsLoop_ok oracle source today domains 1 store ⟨0, 0, 0⟩ st stats n hl
          refine ⟨?_, ?_⟩
          · rw [← h.1]
            simp [mergeDomainsP, ← hp]
          · rw [← h.1, ← h.2]

theorem mergeDNSRecords_error (oracle : DbOracle) (source : String) (today : Int)
    (records : List GoDNSRecord) (store : DNSStore) (e : Unit) (post : DNSStore)
    (h : mergeDNSRecords oracle source today records store = (.error e, post)) :
    post = store := by
  rw [mergeDNSRecords] at h
  split at h
  · injection h with h1 h2; exact h2.symm
  · split at h
    · injection h with h1 h2; exact h2.symm
    · split at h
      · injection h with h1 h2; exact h2.symm
      · split at h
        · injection h with h1 h2; exact h2.symm
        · injection h with h1 h2; exact Except.noConfusion h1

theorem mergeDNSRecords_ok (oracle : DbOracle) (source : String) (today : Int)
    (records : List GoDNSRecord) (store : DNSStore) (res : DNSStore × MergeStats)
    (post : DNSStore)
    (h : mergeDNSRecords oracle source today records store = (.ok res, post)) :
    res = mergeDNSRecordsP source today records store ∧ post = res.1 := by
  rw [mergeDNSRecords] at h
  split at h
  · injection h with h1 h2; exact Except.noConfusion h1
  · split at h
    · injection h with h1 h2; exact Except.noConfusion h1
    · next st stats n heq =>
      split at h
      · injection h with h1 h2; exact Except.noConfusion h1
      · next st2 removed n2 heq2 =>
        split at h
        · injection h with h1 h2; exact Except.noConfusion h1
        · injection h with h1 h2
          injection h1 with h3
          have hp := mergeDNSLoop_ok oracle source today records 1 store ⟨0, 0, 0⟩ st stats n heq
          have hq := dnsTombstoneLoop_ok oracle source today (seenDomainsOf records) n st 0 st2 removed n2 heq2
          refine ⟨?_, ?_⟩
          · rw [← h3]
            simp [mergeDNSRecordsP, ← hp, ← hq]
          · rw [← h3, ← h2]

theorem mergeDomainsLoop_okOracle (source : String) (today : Int)
    (ds : List GoDomain) (n : Nat) (st : DomainStore) (stats : MergeStats) :
    mergeDomainsLoop okOracle source today ds n st stats =
      .ok ((mergeDomainsLoopP source today ds st stats).1,
           (mergeDomainsLoopP source today ds st stats).2, n + 2 * ds.length) := by
  induction ds generalizing n st stats with
  | nil => simp [mergeDomainsLoop, mergeDomainsLoopP]
  | cons d ds ih =>
    rw [mergeDomainsLoop, mergeDomainsLoopP]
    rcases hl : lookupIdx (domMatch source d) st with _ | i <;>
      simp [okOracle, ih, Nat.mul_succ] <;> omega

theorem mergeDNSLoop_okOracle (source : String) (today : Int)
    (xs : List GoDNSRecord) (n : Nat) (st : DNSStore) (stats : MergeStats) :
    mergeDNSLoop okOracle source today xs n st stats =
      .ok ((mergeDNSLoopP source today xs st stats).1,
           (mergeDNSLoopP source today xs st stats).2, n + 2 * xs.length) := by
  induction xs generalizing n st stats with
  | nil => simp [mergeDNSLoop, mergeDNSLoopP]
  | cons x xs ih =>
    rw [mergeDNSLoop, mergeDNSLoopP]
    rcases hl : lookupIdx (dnsMatch source x) st with _ | i <;>
      simp [okOracle, ih, Nat.mul_succ] <;> omega

theorem dnsTombstoneLoop_okOracle (source : String) (today : Int)
    (doms : List String) (n : Nat) (st : DNSStore) (removed : Nat) :
    dnsTombstoneLoop okOracle source today doms n st removed =
      .ok ((dnsTombstoneLoopP source today doms st removed).1,
           (dnsTombstoneLoopP source today doms st removed).2, n + doms.length) := by
  induction doms generalizing n st removed with
  | nil => simp [dnsTombstoneLoop, dnsTombstoneLoopP]
  | cons dom rest ih =>
    rw [dnsTombstoneLoop, dnsTombstoneLoopP]
    simp [okOracle, ih]
    omega

theorem mergeDomains_okOracle (source : String) (today : Int)
    (domains : List GoDomain) (store : DomainStore) :
    mergeDomains okOracle source today domains store =
      (.ok (mergeDomainsP source today domains store),
       (mergeDomainsP source today domains store).1) := by
  rw [mergeDomains]
  simp [okOracle, mergeDomainsLoop_okOracle, mergeDomainsP]

theorem mergeDNSRecords_okOracle (source : String) (today : Int)
    (records : List GoDNSRecord) (store : DNSStore) :
    mergeDNSRecords okOracle source today records store =
      (.ok (mergeDNSRecordsP source today records store),
       (mergeDNSRecordsP source today records store).1) := by
  rw [mergeDNSRecords]
  simp [okOracle, mergeDNSLoop_okOracle, dnsTombstoneLoop_okOracle, mergeDNSRecordsP]

/-! ## Positional characterisation of the domain merge loop

The loop only appends rows and updates rows in place, so pre-existing rows
keep their positions; these lemmas describe what happens at each position. -/

/-- Pre-existing rows keep their identity and discovery date; if touched at
all they are set active with `last_seen = today`. -/
theorem mergeDomainsLoopP_get_lt (source : String) (today : Int)
    (ds : List GoDomain) (st : DomainStore) (stats : MergeStats)
    (i : Nat) (r : DomainRow) (hr : st[i]? = some r) :
    ∃ r', (mergeDomainsLoopP source today ds st stats).1[i]? = some r' ∧
      r'.domain = r.domain ∧ r'.registrar = r.registrar ∧
      r'.discoveryDate = r.discoveryDate ∧
      (r' = r ∨ (r'.status = "active" ∧ r'.lastSeen = today)) := by
  induction ds generalizing st stats r with
  | nil => exact ⟨r, hr, rfl, rfl, rfl, Or.inl rfl⟩
  | cons d ds ih =>
    rw [mergeDomainsLoopP]
    rcases hl : lookupIdx (domMatch source d) st with _ | j
    · have hi : i < st.length := (List.getElem?_eq_some.mp hr).1
      have hr1 : (st ++ [newDomainRow source today d])[i]? = some r := by
        rw [List.getElem?_append_left hi]; exact hr
      exact ih _ _ _ hr1
    · by_cases hij : j = i
      · subst hij
        have hr1 : (listModify (applyDomainUpdate today d) j st)[j]? =
            some (applyDomainUpdate today d r) := by
          rw [listModify_getElem?]; simp [hr]
        obtain ⟨r', hg, h1, h2, h3, h4⟩ := ih _ _ _ hr1
        refine ⟨r', hg, ?_, ?_, ?_, Or.inr ?_⟩
        · simpa [applyDomainUpdate] using h1
        · simpa [applyDomainUpdate] using h2
        · simpa [applyDomainUpdate] using h3
        · rcases h4 with rfl | h4
          · exact ⟨rfl, rfl⟩
          · exact h4
      · have hr1 : (listModify (applyDomainUpdate today d) j st)[i]? = some r := by
          rw [listModify_getElem?]; simp [hij, hr]
        exact ih _ _ _ hr1

/-- A pre-existing row matched by no batch element is completely unchanged by
the loop. -/
theorem mergeDomainsLoopP_get_untouched (source : String) (today : Int)
    (ds : List GoDomain) (st : DomainStore) (stats : MergeStats)
    (i : Nat) (r : DomainRow) (hr : st[i]? = some r)
    (hnm : ∀ d ∈ ds, domMatch source d r = false) :
    (mergeDomainsLoopP source today ds st stats).1[i]? = some r := by
  induction ds generalizing st stats with
  | nil => exact hr
  | cons d ds ih =>
    rw [mergeDomainsLoopP]
    rcases hl : lookupIdx (domMatch source d) st with _ | j
    · have hi : i < st.length := (List.getElem?_eq_some.mp hr).1
      have hr1 : (st ++ [newDomainRow source today d])[i]? = some r := by
        rw [List.getElem?_append_left hi]; exact hr
      exact ih _ _ hr1 fun e he => hnm e (List.mem_cons_of_mem d he)
    · have hij : j ≠ i := by
        intro hji; subst hji
        obtain ⟨a, ha, hpa⟩ := lookupIdx_eq_some _ _ _ hl
        rw [hr] at ha
        cases ha
        exact absurd hpa (by simp [hnm d (List.mem_cons_self d ds)])
      have hr1 : (listModify (applyDomainUpdate today d) j st)[i]? = some r := by
        rw [listModify_getElem?]; simp [hij, hr]
      exact ih _ _ hr1 fun e he => hnm e (List.mem_cons_of_mem d he)

/-- Rows at or beyond a base position that are all freshly inserted stay
freshly inserted: registrar `source`, active, `discovery_date = last_seen =
today`. -/
theorem mergeDomainsLoopP_get_ge (source : String) (today : Int)
    (ds : List GoDomain) (st : DomainStore) (stats : MergeStats) (base : Nat)
    (hbase : ∀ i r', base ≤ i → st[i]? = some r' →
      r'.registrar = source ∧ r'.status = "active" ∧
      r'.discoveryDate = today ∧ r'.lastSeen = today) :
    ∀ i r', base ≤ i → (mergeDomainsLoopP source today ds st stats).1[i]? = some r' →
      r'.registrar = source ∧ r'.status = "active" ∧
      r'.discoveryDate = today ∧ r'.lastSeen = today := by
  induction ds generalizing st stats with
  | nil => exact hbase
  | cons d ds ih =>
    rw [mergeDomainsLoopP]
    rcases hl : lookupIdx (domMatch source d) st with _ | j
    · refine ih _ _ ?_
      intro i r' hbi hg
      by_cases hi : i < st.length
      · rw [List.getElem?_append_left hi] at hg
        exact hbase i r' hbi hg
      · rw [List.getElem?_append_right (Nat.le_of_not_lt hi)] at hg
        rcases hk : i - st.length with _ | k
        · rw [hk] at hg
          cases hg
          exact ⟨rfl, rfl, rfl, rfl⟩
        · rw [hk] at hg
          simp at hg
    · refine ih _ _ ?_
      intro i r' hbi hg
      rw [listModify_getElem?] at hg
      by_cases hij : j = i
      · rw [if_pos hij] at hg
        rcases hr : st[i]? with _ | r
        · rw [hr] at hg; cases hg
        · rw [hr] at hg
          cases hg
          obtain ⟨h1, h2, h3, h4⟩ := hbase i r hbi hr
          exact ⟨h1, by simp [applyDomainUpdate],
            by simpa [applyDomainUpdate] using h3, by simp [applyDomainUpdate]⟩
      · rw [if_neg hij] at hg
        exact hbase i r' hbi hg

theorem mem_of_getElem? {l : List α} {n : Nat} {a : α} (h : l[n]? = some a) :
    a ∈ l := by
  obtain ⟨hn, rfl⟩ := List.getElem?_eq_some.mp h
  exact List.getElem_mem hn

theorem concat_getElem? (l : List α) (x : α) (k : Nat) :
    (l ++ [x])[k]? =
      if k < l.length then l[k]? else if k = l.length then some x else none := by
  by_cases h : k < l.length
  · simp [List.getElem?_append_left h, h]
  · rw [List.getElem?_append_right (Nat.le_of_not_lt h)]
    by_cases h2 : k = l.length
    · simp [h, h2]
    · rcases hk : k - l.length with _ | m
      · exact absurd (by omega : k = l.length) h2
      · simp [h, h2, hk]

theorem domMatch_iff (source : String) (d : GoDomain) (r : DomainRow) :
    domMatch source d r = true ↔ r.domain = d.domain ∧ r.registrar = source := by
  simp [domMatch]

theorem domStoreUnique_insert (source : String) (today : Int) (d : GoDomain)
    (st : DomainStore) (hU : domStoreUnique st)
    (hl : lookupIdx (domMatch source d) st = none) :
    domStoreUnique (st ++ [newDomainRow source today d]) := by
  intro k₁ k₂ r₁ r₂ h₁ h₂ hd hreg
  rw [concat_getElem?] at h₁ h₂
  by_cases c₁ : k₁ < st.length <;> by_cases c₂ : k₂ < st.length
  · rw [if_pos c₁] at h₁; rw [if_pos c₂] at h₂
    exact hU k₁ k₂ r₁ r₂ h₁ h₂ hd hreg
  · rw [if_pos c₁] at h₁
    rw [if_neg c₂] at h₂
    by_cases e₂ : k₂ = st.length
    · rw [if_pos e₂] at h₂
      cases h₂
      have : domMatch source d r₁ = true := by
        rw [domMatch_iff]
        refine ⟨?_, ?_⟩
        · simpa [newDomainRow] using hd
        · simpa [newDomainRow] using hreg
      have := (lookupIdx_eq_none _ _).mp hl r₁ (mem_of_getElem? h₁)
      simp_all
    · rw [if_neg e₂] at h₂; cases h₂
  · rw [if_pos c₂] at h₂
    rw [if_neg c₁] at h₁
    by_cases e₁ : k₁ = st.length
    · rw [if_pos e₁] at h₁
      cases h₁
      have : domMatch source d r₂ = true := by
        rw [domMatch_iff]
        refine ⟨?_, ?_⟩
        · simpa [newDomainRow] using hd.symm
        · simpa [newDomainRow] using hreg.symm
      have := (lookupIdx_eq_none _ _).mp hl r₂ (mem_of_getElem? h₂)
      simp_all
    · rw [if_neg e₁] at h₁; cases h₁
  · rw [if_neg c₁] at h₁; rw [if_neg c₂] at h₂
    by_cases e₁ : k₁ = st.length
    · by_cases e₂ : k₂ = st.length
      · rw [e₁, e₂]
      · rw [if_neg e₂] at h₂; cases h₂
    · rw [if_neg e₁] at h₁; cases h₁

theorem domStoreUnique_update (today : Int) (d : GoDomain) (i : Nat)
    (st : DomainStore) (hU : domStoreUnique st) :
    domStoreUnique (listModify (applyDomainUpdate today d) i st) := by
  intro k₁ k₂ r₁ r₂ h₁ h₂ hd hreg
  rw [listModify_getElem?] at h₁ h₂
  have unwrap : ∀ k r, (if i = k then (st[k]?).map (applyDomainUpdate today d)
      else st[k]?) = some r →
      ∃ s, st[k]? = some s ∧ s.domain = r.domain ∧ s.registrar = r.registrar := by
    intro k r h
    by_cases hik : i = k
    · rw [if_pos hik] at h
      rcases hs : st[k]? with _ | s
      · rw [hs] at h; cases h
      · rw [hs] at h
        cases h
        exact ⟨s, rfl, rfl, rfl⟩
    · rw [if_neg hik] at h
      exact ⟨r, h, rfl, rfl⟩
  obtain ⟨s₁, hs₁, hd₁, hr₁⟩ := unwrap k₁ r₁ h₁
  obtain ⟨s₂, hs₂, hd₂, hr₂⟩ := unwrap k₂ r₂ h₂
  exact hU k₁ k₂ s₁ s₂ hs₁ hs₂ (by rw [hd₁, hd₂, hd]) (by rw [hr₁, hr₂, hreg])

theorem domHasExactlyOne_insert (source : String) (today : Int) (d : GoDomain)
    (st : DomainStore)
    (hl : lookupIdx (domMatch source d) st = none) :
    domHasExactlyOne source today d (st ++ [newDomainRow source today d]) := by
  refine ⟨st.length, newDomainRow source today d, ?_, ?_, rfl, rfl, ?_⟩
  · rw [concat_getElem?]
    simp
  · simp [domMatch_iff, newDomainRow]
  · intro k rk hk hm
    rw [concat_getElem?] at hk
    by_cases c : k < st.length
    · rw [if_pos c] at hk
      have := (lookupIdx_eq_none _ _).mp hl rk (mem_of_getElem? hk)
      simp_all
    · by_cases e : k = st.length
      · exact e
      · rw [if_neg c, if_neg e] at hk; cases hk

theorem domHasExactlyOne_update (source : String) (today : Int) (d : GoDomain)
    (i : Nat) (st : DomainStore) (hU : domStoreUnique st)
    (hl : lookupIdx (domMatch source d) st = some i) :
    domHasExactlyOne source today d (listModify (applyDomainUpdate today d) i st) := by
  obtain ⟨ri, hri, hmi⟩ := lookupIdx_eq_some _ _ _ hl
  refine ⟨i, applyDomainUpdate today d ri, ?_, ?_, rfl, rfl, ?_⟩
  · rw [listModify_getElem?, if_pos rfl, hri]; rfl
  · rw [domMatch_iff] at hmi ⊢
    exact ⟨hmi.1, hmi.2⟩
  · intro k rk hk hm
    rw [listModify_getElem?] at hk
    by_cases hik : i = k
    · exact hik.symm
    · rw [if_neg hik] at hk
      rw [domMatch_iff] at hm hmi
      exact hU k i rk ri hk hri (hm.1.trans hmi.1.symm) (hm.2.trans hmi.2.symm)

theorem domHasExactlyOne_step_insert (source : String) (today : Int)
    (d e : GoDomain) (st : DomainStore)
    (hQ : domHasExactlyOne source today d st)
    (hl : lookupIdx (domMatch source e) st = none) :
    domHasExactlyOne source today d (st ++ [newDomainRow source today e]) := by
  obtain ⟨j, rj, hj, hm, hs, ht, huniq⟩ := hQ
  have hjlen : j < st.length := (List.getElem?_eq_some.mp hj).1
  refine ⟨j, rj, ?_, hm, hs, ht, ?_⟩
  · rw [concat_getElem?, if_pos hjlen]; exact hj
  · intro k rk hk hmk
    rw [concat_getElem?] at hk
    by_cases c : k < st.length
    · rw [if_pos c] at hk
      exact huniq k rk hk hmk
    · by_cases e2 : k = st.length
      · rw [if_neg c, if_pos e2] at hk
        cases hk
        rw [domMatch_iff] at hmk hm
        have hmje : domMatch source e rj = true := by
          rw [domMatch_iff]
          refine ⟨?_, hm.2⟩
          have hde : e.domain = d.domain := by simpa [newDomainRow] using hmk.1
          rw [hm.1, ← hde]
        have := (lookupIdx_eq_none _ _).mp hl rj (mem_of_getElem? hj)
        simp_all
      · rw [if_neg c, if_neg e2] at hk; cases hk

theorem domHasExactlyOne_step_update (source : String) (today : Int)
    (d e : GoDomain) (i : Nat) (st : DomainStore)
    (hQ : domHasExactlyOne source today d st) :
    domHasExactlyOne source today d (listModify (applyDomainUpdate today e) i st) := by
  obtain ⟨j, rj, hj, hm, hs, ht, huniq⟩ := hQ
  by_cases hij : i = j
  · subst hij
    refine ⟨i, applyDomainUpdate today e rj, ?_, ?_, rfl, rfl, ?_⟩
    · rw [listModify_getElem?, if_pos rfl, hj]; rfl
    · rw [domMatch_iff] at hm ⊢
      exact ⟨hm.1, hm.2⟩
    · intro k rk hk hmk
      rw [listModify_getElem?] at hk
      by_cases hik : i = k
      · exact hik.symm
      · rw [if_neg hik] at hk
        exact huniq k rk hk hmk
  · refine ⟨j, rj, ?_, hm, hs, ht, ?_⟩
    · rw [listModify_getElem?, if_neg hij]; exact hj
    · intro k rk hk hmk
      rw [listModify_getElem?] at hk
      by_cases hik : i = k
      · subst hik
        rw [if_pos rfl] at hk
        rcases hr : st[i]? with _ | ri
        · rw [hr] at hk; cases hk
        · rw [hr] at hk
          cases hk
          have : domMatch source d ri = true := by
            rw [domMatch_iff] at hmk ⊢
            exact ⟨hmk.1, hmk.2⟩
          exact huniq i ri hr this
      · rw [if_neg hik] at hk
        exact huniq k rk hk hmk

theorem mergeDomainsLoopP_keeps_exactlyOne (source : String) (today : Int)
    (ds : List GoDomain) (st : DomainStore) (stats : MergeStats) (d : GoDomain)
    (hQ : domHasExactlyOne source today d st) :
    domHasExactlyOne source today d (mergeDomainsLoopP source today ds st stats).1 := by
  induction ds generalizing st stats with
  | nil => exact hQ
  | cons e ds ih =>
    rw [mergeDomainsLoopP]
    rcases hl : lookupIdx (domMatch source e) st with _ | i
    · exact ih _ _ (domHasExactlyOne_step_insert source today d e st hQ hl)
    · exact ih _ _ (domHasExactlyOne_step_update source today d e i st hQ)

theorem mergeDomainsLoopP_keeps_unique (source : String) (today : Int)
    (ds : List GoDomain) (st : DomainStore) (stats : MergeStats)
    (hU : domStoreUnique st) :
    domStoreUnique (mergeDomainsLoopP source today ds st stats).1 := by
  induction ds generalizing st stats with
  | nil => exact hU
  | cons e ds ih =>
    rw [mergeDomainsLoopP]
    rcases hl : lookupIdx (domMatch source e) st with _ | i
    · exact ih _ _ (domStoreUnique_insert source today e st hU hl)
    · exact ih _ _ (domStoreUnique_update today e i st hU)

theorem mergeDomainsLoopP_exactlyOne (source : String) (today : Int)
    (ds : List GoDomain) (st : DomainStore) (stats : MergeStats)
    (hU : domStoreUnique st) :
    ∀ d ∈ ds, domHasExactlyOne source today d (mergeDomainsLoopP source today ds st stats).1 := by
  induction ds generalizing st stats with
  | nil => intro d hd; cases hd
  | cons e ds ih =>
    intro d hd
    rw [mergeDomainsLoopP]
    rcases List.mem_cons.mp hd with rfl | hd
    · rcases hl : lookupIdx (domMatch source d) st with _ | i
      · exact mergeDomainsLoopP_keeps_exactlyOne source today ds _ _ d
          (domHasExactlyOne_insert source today d st hl)
      · exact mergeDomainsLoopP_keeps_exactlyOne source today ds _ _ d
          (domHasExactlyOne_update source today d i st hU hl)
    · rcases hl : lookupIdx (domMatch source e) st with _ | i
      · exact ih _ _ (domStoreUnique_insert source today e st hU hl) d hd
      · exact ih _ _ (domStoreUnique_update today e i st hU) d hd

/-! ## Tombstone characterisation -/

theorem domainTombstone_of_cond (source : String) (today : Int) (r : DomainRow)
    (h : r.registrar = source ∧ r.status = "active" ∧ r.lastSeen < today) :
    domainTombstone source today r = { r with status := "removed" } := by
  rw [domainTombstone, if_pos h]

theorem domainTombstone_of_not_cond (source : String) (today : Int) (r : DomainRow)
    (h : ¬(r.registrar = source ∧ r.status = "active" ∧ r.lastSeen < today)) :
    domainTombstone source today r = r := by
  rw [domainTombstone, if_neg h]

theorem domainTombstone_fields (source : String) (today : Int) (r : DomainRow) :
    (domainTombstone source today r).domain = r.domain ∧
    (domainTombstone source today r).registrar = r.registrar ∧
    (domainTombstone source today r).discoveryDate = r.discoveryDate ∧
    (domainTombstone source today r).lastSeen = r.lastSeen := by
  rw [domainTombstone]
  split <;> exact ⟨rfl, rfl, rfl, rfl⟩

theorem domHasExactlyOne_map_tombstone (source : String) (today : Int)
    (d : GoDomain) (st : DomainStore)
    (hQ : domHasExactlyOne source today d st) :
    domHasExactlyOne source today d (st.map (domainTombstone source today)) := by
  obtain ⟨j, rj, hj, hm, hs, ht, huniq⟩ := hQ
  have htj : domainTombstone source today rj = rj := by
    apply domainTombstone_of_not_cond
    rintro ⟨-, -, hlt⟩
    rw [ht] at hlt
    exact lt_irrefl today hlt
  refine ⟨j, rj, ?_, hm, hs, ht, ?_⟩
  · rw [List.getElem?_map, hj, Option.map_some', htj]
  · intro k rk hk hmk
    rw [List.getElem?_map] at hk
    rcases hk0 : st[k]? with _ | rk0
    · rw [hk0] at hk; cases hk
    · rw [hk0] at hk
      cases hk
      apply huniq k rk0 hk0
      rw [domMatch_iff] at hmk ⊢
      obtain ⟨f1, f2, -, -⟩ := domainTombstone_fields source today rk0
      exact ⟨f1 ▸ hmk.1, f2 ▸ hmk.2⟩

/-! ## Positional characterisation of the DNS merge loop -/

theorem dnsMatch_iff (source : String) (x : GoDNSRecord) (r : DNSRow) :
    dnsMatch source x r = true ↔
      r.domain = x.domain ∧ r.subdomain = x.subdomain ∧
      r.recordType = x.recordType ∧ r.data = x.data ∧ r.source = source := by
  simp [dnsMatch, and_assoc]

theorem mergeDNSLoopP_get_lt (source : String) (today : Int)
    (xs : List GoDNSRecord) (st : DNSStore) (stats : MergeStats)
    (i : Nat) (r : DNSRow) (hr : st[i]? = some r) :
    ∃ r', (mergeDNSLoopP source today xs st stats).1[i]? = some r' ∧
      r'.domain = r.domain ∧ r'.subdomain = r.subdomain ∧
      r'.recordType = r.recordType ∧ r'.data = r.data ∧
      r'.source = r.source ∧ r'.discoveryDate = r.discoveryDate ∧
      (r' = r ∨ (r'.status = "active" ∧ r'.lastSeen = today)) := by
  induction xs generalizing st stats r with
  | nil => exact ⟨r, hr, rfl, rfl, rfl, rfl, rfl, rfl, Or.inl rfl⟩
  | cons x xs ih =>
    rw [mergeDNSLoopP]
    rcases hl : lookupIdx (dnsMatch source x) st with _ | j
    · have hi : i < st.length := (List.getElem?_eq_some.mp hr).1
      have hr1 : (st ++ [newDNSRow source today x])[i]? = some r := by
        rw [List.getElem?_append_left hi]; exact hr
      exact ih _ _ _ hr1
    · by_cases hij : j = i
      · subst hij
        have hr1 : (listModify (applyDNSUpdate today x) j st)[j]? =
            some (applyDNSUpdate today x r) := by
          rw [listModify_getElem?]; simp [hr]
        obtain ⟨r', hg, h1, h2, h3, h4, h5, h6, h7⟩ := ih _ _ _ hr1
        refine ⟨r', hg, ?_, ?_, ?_, ?_, ?_, ?_, Or.inr ?_⟩
        · simpa [applyDNSUpdate] using h1
        · simpa [applyDNSUpdate] using h2
        · simpa [applyDNSUpdate] using h3
        · simpa [applyDNSUpdate] using h4
        · simpa [applyDNSUpdate] using h5
        · simpa [applyDNSUpdate] using h6
        · rcases h7 with rfl | h7
          · exact ⟨rfl, rfl⟩
          · exact h7
      · have hr1 : (listModify (applyDNSUpdate today x) j st)[i]? = some r := by
          rw [listModify_getElem?]; simp [hij, hr]
        exact ih _ _ _ hr1

theorem mergeDNSLoopP_get_untouched (source : String) (today : Int)
    (xs : List GoDNSRecord) (st : DNSStore) (stats : MergeStats)
    (i : Nat) (r : DNSRow) (hr : st[i]? = some r)
    (hnm : ∀ x ∈ xs, dnsMatch source x r = false) :
    (mergeDNSLoopP source today xs st stats).1[i]? = some r := by
  induction xs generalizing st stats with
  | nil => exact hr
  | cons x xs ih =>
    rw [mergeDNSLoopP]
    rcases hl : lookupIdx (dnsMatch source x) st with _ | j
    · have hi : i < st.length := (List.getElem?_eq_some.mp hr).1
      have hr1 : (st ++ [newDNSRow source today x])[i]? = some r := by
        rw [List.getElem?_append_left hi]; exact hr
      exact ih _ _ hr1 fun e he => hnm e (List.mem_cons_of_mem x he)
    · have hij : j ≠ i := by
        intro hji; subst hji
        obtain ⟨a, ha, hpa⟩ := lookupIdx_eq_some _ _ _ hl
        rw [hr] at ha
        cases ha
        exact absurd hpa (by simp [hnm x (List.mem_cons_self x xs)])
      have hr1 : (listModify (applyDNSUpdate today x) j st)[i]? = some r := by
        rw [listModify_getElem?]; simp [hij, hr]
      exact ih _ _ hr1 fun e he => hnm e (List.mem_cons_of_mem x he)

theorem mergeDNSLoopP_get_ge (source : String) (today : Int)
    (xs : List GoDNSRecord) (st : DNSStore) (stats : MergeStats) (base : Nat)
    (hbase : ∀ (i : Nat) (r' : DNSRow), base ≤ i → st[i]? = some r' →
      r'.source = source ∧ r'.status = "active" ∧
      r'.discoveryDate = today ∧ r'.lastSeen = today) :
    ∀ (i : Nat) (r' : DNSRow), base ≤ i →
      (mergeDNSLoopP source today xs st stats).1[i]? = some r' →
      r'.source = source ∧ r'.status = "active" ∧
      r'.discoveryDate = today ∧ r'.lastSeen = today := by
  induction xs generalizing st stats with
  | nil => exact hbase
  | cons x xs ih =>
    rw [mergeDNSLoopP]
    rcases hl : lookupIdx (dnsMatch source x) st with _ | j
    · refine ih _ _ ?_
      intro i r' hbi hg
      by_cases hi : i < st.length
      · rw [List.getElem?_append_left hi] at hg
        exact hbase i r' hbi hg
      · rw [List.getElem?_append_right (Nat.le_of_not_lt hi)] at hg
        rcases hk : i - st.length with _ | k
        · rw [hk] at hg
          cases hg
          exact ⟨rfl, rfl, rfl, rfl⟩
        · rw [hk] at hg
          simp at hg
    · refine ih _ _ ?_
      intro i r' hbi hg
      rw [listModify_getElem?] at hg
      by_cases hij : j = i
      · rw [if_pos hij] at hg
        rcases hr : st[i]? with _ | r
        · rw [hr] at hg; cases hg
        · rw [hr] at hg
          cases hg
          obtain ⟨h1, h2, h3, h4⟩ := hbase i r hbi hr
          exact ⟨h1, by simp [applyDNSUpdate],
            by simpa [applyDNSUpdate] using h3, by simp [applyDNSUpdate]⟩
      · rw [if_neg hij] at hg
        exact hbase i r' hbi hg

theorem dnsTombstoneLoopP_fst (source : String) (today : Int)
    (doms : List String) (st : DNSStore) (removed : Nat) :
    (dnsTombstoneLoopP source today doms st removed).1 =
      st.map (tombFold source today doms) := by
  induction doms generalizing st removed with
  | nil =>
    rw [dnsTombstoneLoopP]
    have : tombFold source today [] = id := rfl
    rw [this, List.map_id]
  | cons dom rest ih =>
    rw [dnsTombstoneLoopP, ih, List.map_map]
    rfl

theorem dnsTombstone_fields (source dom : String) (today : Int) (r : DNSRow) :
    (dnsTombstone source dom today r).domain = r.domain ∧
    (dnsTombstone source dom today r).subdomain = r.subdomain ∧
    (dnsTombstone source dom today r).recordType = r.recordType ∧
    (dnsTombstone source dom today r).data = r.data ∧
    (dnsTombstone source dom today r).source = r.source ∧
    (dnsTombstone source dom today r).discoveryDate = r.discoveryDate ∧
    (dnsTombstone source dom today r).lastSeen = r.lastSeen := by
  rw [dnsTombstone]
  split <;> exact ⟨rfl, rfl, rfl, rfl, rfl, rfl, rfl⟩

theorem tombFold_fields (source : String) (today : Int) (doms : List String)
    (r : DNSRow) :
    (tombFold source today doms r).domain = r.domain ∧
    (tombFold source today doms r).subdomain = r.subdomain ∧
    (tombFold source today doms r).recordType = r.recordType ∧
    (tombFold source today doms r).data = r.data ∧
    (tombFold source today doms r).source = r.source ∧
    (tombFold source today doms r).discoveryDate = r.discoveryDate ∧
    (tombFold source today doms r).lastSeen = r.lastSeen := by
  induction doms generalizing r with
  | nil => exact ⟨rfl, rfl, rfl, rfl, rfl, rfl, rfl⟩
  | cons dom rest ih =>
    have hd := dnsTombstone_fields source dom today r
    have hr := ih (dnsTombstone source dom today r)
    rw [tombFold] at hr ⊢
    simp only [List.foldl_cons]
    refine ⟨?_, ?_, ?_, ?_, ?_, ?_, ?_⟩
    · rw [hr.1, hd.1]
    · rw [hr.2.1, hd.2.1]
    · rw [hr.2.2.1, hd.2.2.1]
    · rw [hr.2.2.2.1, hd.2.2.2.1]
    · rw [hr.2.2.2.2.1, hd.2.2.2.2.1]
    · rw [hr.2.2.2.2.2.1, hd.2.2.2.2.2.1]
    · rw [hr.2.2.2.2.2.2, hd.2.2.2.2.2.2]

theorem tombFold_of_not_cond (source : String) (today : Int)
    (doms : List String) (r : DNSRow)
    (h : ¬(r.source = source ∧ r.status = "active" ∧ r.lastSeen < today ∧
      r.domain ∈ doms)) :
    tombFold source today doms r = r := by
  induction doms with
  | nil => rfl
  | cons dom rest ih =>
    rw [tombFold, List.foldl_cons]
    have hstep : dnsTombstone source dom today r = r := by
      rw [dnsTombstone, if_neg]
      rintro ⟨c1, c2, c3, c4⟩
      exact h ⟨c1, c3, c4, by rw [c2]; exact List.mem_cons_self dom rest⟩
    rw [hstep]
    exact ih fun ⟨c1, c2, c3, c4⟩ => h ⟨c1, c2, c3, List.mem_cons_of_mem dom c4⟩

theorem tombFold_of_cond (source : String) (today : Int)
    (doms : List String) (r : DNSRow)
    (h : r.source = source ∧ r.status = "active" ∧ r.lastSeen < today ∧
      r.domain ∈ doms) :
    tombFold source today doms r = { r with status := "removed" } := by
  induction doms with
  | nil => cases h.2.2.2
  | cons dom rest ih =>
    rw [tombFold, List.foldl_cons]
    by_cases hdom : r.domain = dom
    · have hstep : dnsTombstone source dom today r = { r with status := "removed" } := by
        rw [dnsTombstone, if_pos ⟨h.1, hdom, h.2.1, h.2.2.1⟩]
      rw [hstep]
      apply tombFold_of_not_cond
      rintro ⟨-, c2, -, -⟩
      simp at c2
    · have hstep : dnsTombstone source dom today r = r := by
        rw [dnsTombstone, if_neg]
        rintro ⟨-, c2, -, -⟩
        exact hdom c2
      rw [hstep]
      refine ih ⟨h.1, h.2.1, h.2.2.1, ?_⟩
      rcases List.mem_cons.mp h.2.2.2 with he | hm
      · exact absurd he hdom
      · exact hm

/-! ## Support lemmas for the claim theorems -/

theorem getElem?_none_of_le {l : List α} {n : Nat} (h : l.length ≤ n) :
    l[n]? = none := by
  cases hx : l[n]? with
  | none => rfl
  | some a =>
    have := (List.getElem?_eq_some.mp hx).1
    omega

theorem getElem?_eq_some_self {l : List α} {n : Nat} (h : n < l.length) :
    l[n]? = some l[n] :=
  (List.getElem?_eq_some_getElem_iff l n h).mpr trivial

theorem exists_getElem?_of_mem {l : List α} {a : α} (h : a ∈ l) :
    ∃ n : Nat, l[n]? = some a := by
  obtain ⟨n, hlt, rfl⟩ := List.getElem_of_mem h
  exact ⟨n, getElem?_eq_some_self hlt⟩

theorem domStoreUnique_singleton (r : DomainRow) : domStoreUnique [r] := by
  intro k₁ k₂ r₁ r₂ h₁ h₂ _ _
  have a1 := (List.getElem?_eq_some.mp h₁).1
  have a2 := (List.getElem?_eq_some.mp h₂).1
  simp only [List.length_singleton] at a1 a2
  omega

theorem seenDomainsOf_go (records : List GoDNSRecord) (acc : List String)
    (dom : String) :
    (dom ∈ records.foldl
      (fun acc r => if r.domain ∈ acc then acc else acc ++ [r.domain]) acc) ↔
    dom ∈ acc ∨ ∃ r ∈ records, r.domain = dom := by
  induction records generalizing acc with
  | nil => simp
  | cons r rs ih =>
    rw [List.foldl_cons, ih]
    by_cases hc : r.domain ∈ acc
    · rw [if_pos hc]
      constructor
      · rintro (h | ⟨x, hx, rfl⟩)
        · exact Or.inl h
        · exact Or.inr ⟨x, List.mem_cons_of_mem r hx, rfl⟩
      · rintro (h | ⟨x, hx, rfl⟩)
        · exact Or.inl h
        · rcases List.mem_cons.mp hx with rfl | hx2
          · exact Or.inl hc
          · exact Or.inr ⟨x, hx2, rfl⟩
    · rw [if_neg hc]
      constructor
      · rintro (h | ⟨x, hx, rfl⟩)
        · rcases List.mem_append.mp h with h2 | h2
          · exact Or.inl h2
          · rw [List.mem_singleton] at h2
            exact Or.inr ⟨r, List.mem_cons_self r rs, h2.symm⟩
        · exact Or.inr ⟨x, List.mem_cons_of_mem r hx, rfl⟩
      · rintro (h | ⟨x, hx, rfl⟩)
        · exact Or.inl (List.mem_append.mpr (Or.inl h))
        · rcases List.mem_cons.mp hx with rfl | hx2
          · exact Or.inl (List.mem_append.mpr (Or.inr (List.mem_singleton.mpr rfl)))
          · exact Or.inr ⟨x, hx2, rfl⟩

theorem mem_seenDomainsOf (records : List GoDNSRecord) (dom : String) :
    dom ∈ seenDomainsOf records ↔ ∃ r ∈ records, r.domain = dom := by
  rw [seenDomainsOf, seenDomainsOf_go]
  simp

/-- Provenance facts of a successful `MergeDomains`: pre-existing rows keep
`discovery_date`, their `last_seen` either stays or becomes `today`, rows can
only become `removed` via the `last_seen < today` tombstone; freshly inserted
rows get `discovery_date = last_seen = today`; and `discovery_date ≤
last_seen` is preserved when `today` is no earlier than any stored
`discovery_date`. -/
theorem mergeDomains_discovery (oracle : DbOracle) (source : String)
    (today : Int) (batch : List GoDomain) (store : DomainStore)
    (st' : DomainStore) (stats : MergeStats) (post : DomainStore)
    (h : mergeDomains oracle source today batch store = (.ok (st', stats), post)) :
    (∀ (i : Nat) (r : DomainRow), store[i]? = some r →
      ∃ r', st'[i]? = some r' ∧ r'.discoveryDate = r.discoveryDate ∧
        (r'.lastSeen = r.lastSeen ∨ r'.lastSeen = today) ∧
        (r'.status = "removed" → r.status = "removed" ∨ r.lastSeen < today)) ∧
    (∀ (i : Nat) (r' : DomainRow), st'[i]? = some r' → store.length ≤ i →
      r'.discoveryDate = today ∧ r'.lastSeen = today ∧ r'.status = "active" ∧
      r'.registrar = source) ∧
    ((∀ r ∈ store, r.discoveryDate ≤ r.lastSeen) →
      (∀ r ∈ store, r.discoveryDate ≤ today) →
      ∀ r' ∈ st', r'.discoveryDate ≤ r'.lastSeen) := by
  obtain ⟨hres, -⟩ := mergeDomains_ok oracle source today batch store (st', stats) post h
  have hst : st' = (mergeDomainsLoopP source today batch store ⟨0, 0, 0⟩).1.map
      (domainTombstone source today) := by
    have h1 := congrArg Prod.fst hres
    simpa [mergeDomainsP] using h1
  have partA : ∀ (i : Nat) (r : DomainRow), store[i]? = some r →
      ∃ r', st'[i]? = some r' ∧ r'.discoveryDate = r.discoveryDate ∧
        (r'.lastSeen = r.lastSeen ∨ r'.lastSeen = today) ∧
        (r'.status = "removed" → r.status = "removed" ∨ r.lastSeen < today) := by
    intro i r hr
    obtain ⟨r₁, hg, hdm, hreg, hdisc, hcase⟩ :=
      mergeDomainsLoopP_get_lt source today batch store ⟨0, 0, 0⟩ i r hr
    obtain ⟨f1, f2, f3, f4⟩ := domainTombstone_fields source today r₁
    refine ⟨domainTombstone source today r₁, ?_, ?_, ?_, ?_⟩
    · rw [hst, List.getElem?_map, hg, Option.map_some']
    · rw [f3, hdisc]
    · rcases hcase with rfl | ⟨ha, ht⟩
      · exact Or.inl (by rw [f4])
      · exact Or.inr (by rw [f4, ht])
    · intro hrem
      by_cases hcond : r₁.registrar = source ∧ r₁.status = "active" ∧ r₁.lastSeen < today
      · rcases hcase with rfl | ⟨ha, ht⟩
        · exact Or.inr hcond.2.2
        · rw [ht] at hcond
          exact absurd hcond.2.2 (lt_irrefl today)
      · rw [domainTombstone_of_not_cond source today r₁ hcond] at hrem
        rcases hcase with rfl | ⟨ha, ht⟩
        · exact Or.inl hrem
        · rw [ha] at hrem
          exact absurd hrem (by decide)
  have partB : ∀ (i : Nat) (r' : DomainRow), st'[i]? = some r' → store.length ≤ i →
      r'.discoveryDate = today ∧ r'.lastSeen = today ∧ r'.status = "active" ∧
      r'.registrar = source := by
    intro i r' hg hlen
    rw [hst, List.getElem?_map] at hg
    rcases hg1 : (mergeDomainsLoopP source today batch store ⟨0, 0, 0⟩).1[i]? with _ | r₁
    · rw [hg1] at hg; cases hg
    · rw [hg1] at hg
      cases hg
      have hvac : ∀ (i0 : Nat) (r0 : DomainRow), store.length ≤ i0 →
          store[i0]? = some r0 →
          r0.registrar = source ∧ r0.status = "active" ∧
          r0.discoveryDate = today ∧ r0.lastSeen = today := by
        intro i0 r0 hb hsome
        rw [getElem?_none_of_le hb] at hsome
        cases hsome
      obtain ⟨g1, g2, g3, g4⟩ := mergeDomainsLoopP_get_ge source today batch store
        ⟨0, 0, 0⟩ store.length hvac i r₁ hlen hg1
      have hno : domainTombstone source today r₁ = r₁ := by
        apply domainTombstone_of_not_cond
        rintro ⟨-, -, hlt⟩
        rw [g4] at hlt
        exact lt_irrefl today hlt
      rw [hno]
      exact ⟨g3, g4, g2, g1⟩
  refine ⟨partA, partB, ?_⟩
  intro hinv hmono r' hmem
  obtain ⟨n, hn⟩ := exists_getElem?_of_mem hmem
  by_cases hlt : n < store.length
  · have hsome : store[n]? = some (store[n]) := getElem?_eq_some_self hlt
    obtain ⟨r'', hg, hdisc, hls, -⟩ := partA n (store[n]) hsome
    rw [hn] at hg
    cases hg
    have hsmem : store[n] ∈ store := List.getElem_mem hlt
    rcases hls with hsame | htoday
    · rw [hdisc, hsame]
      exact hinv (store[n]) hsmem
    · rw [hdisc, htoday]
      exact hmono (store[n]) hsmem
  · obtain ⟨g1, g2, -, -⟩ := partB n r' hn (Nat.le_of_not_lt hlt)
    rw [g1, g2]

/-- The DNS counterpart of `mergeDomains_discovery`. -/
theorem mergeDNSRecords_discovery (oracle : DbOracle) (source : String)
    (today : Int) (batch : List GoDNSRecord) (store : DNSStore)
    (st' : DNSStore) (stats : MergeStats) (post : DNSStore)
    (h : mergeDNSRecords oracle source today batch store = (.ok (st', stats), post)) :
    (∀ (i : Nat) (r : DNSRow), store[i]? = some r →
      ∃ r', st'[i]? = some r' ∧ r'.discoveryDate = r.discoveryDate ∧
        (r'.lastSeen = r.lastSeen ∨ r'.lastSeen = today)) ∧
    (∀ (i : Nat) (r' : DNSRow), st'[i]? = some r' → store.length ≤ i →
      r'.discoveryDate = today ∧ r'.lastSeen = today ∧ r'.status = "active" ∧
      r'.source = source) ∧
    ((∀ r ∈ store, r.discoveryDate ≤ r.lastSeen) →
      (∀ r ∈ store, r.discoveryDate ≤ today) →
      ∀ r' ∈ st', r'.discoveryDate ≤ r'.lastSeen) := by
  obtain ⟨hres, -⟩ := mergeDNSRecords_ok oracle source today batch store (st', stats) post h
  have hst : st' = (mergeDNSLoopP source today batch store ⟨0, 0, 0⟩).1.map
      (tombFold source today (seenDomainsOf batch)) := by
    have h1 := congrArg Prod.fst hres
    simpa [mergeDNSRecordsP, dnsTombstoneLoopP_fst] using h1
  have partA : ∀ (i : Nat) (r : DNSRow), store[i]? = some r →
      ∃ r', st'[i]? = some r' ∧ r'.discoveryDate = r.discoveryDate ∧
        (r'.lastSeen = r.lastSeen ∨ r'.lastSeen = today) := by
    intro i r hr
    obtain ⟨r₁, hg, h1, h2, h3, h4, h5, hdisc, hcase⟩ :=
      mergeDNSLoopP_get_lt source today batch store ⟨0, 0, 0⟩ i r hr
    obtain ⟨-, -, -, -, -, f6, f7⟩ :=
      tombFold_fields source today (seenDomainsOf batch) r₁
    refine ⟨tombFold source today (seenDomainsOf batch) r₁, ?_, ?_, ?_⟩
    · rw [hst, List.getElem?_map, hg, Option.map_some']
    · rw [f6, hdisc]
    · rcases hcase with rfl | ⟨ha, ht⟩
      · exact Or.inl (by rw [f7])
      · exact Or.inr (by rw [f7, ht])
  have partB : ∀ (i : Nat) (r' : DNSRow), st'[i]? = some r' → store.length ≤ i →
      r'.discoveryDate = today ∧ r'.lastSeen = today ∧ r'.status = "active" ∧
      r'.source = source := by
    intro i r' hg hlen
    rw [hst, List.getElem?_map] at hg
    rcases hg1 : (mergeDNSLoopP source today batch store ⟨0, 0, 0⟩).1[i]? with _ | r₁
    · rw [hg1] at hg; cases hg
    · rw [hg1] at hg
      cases hg
      have hvac : ∀ (i0 : Nat) (r0 : DNSRow), store.length ≤ i0 →
          store[i0]? = some r0 →
          r0.source = source ∧ r0.status = "active" ∧
          r0.discoveryDate = today ∧ r0.lastSeen = today := by
        intro i0 r0 hb hsome
        rw [getElem?_none_of_le hb] at hsome
        cases hsome
      obtain ⟨g1, g2, g3, g4⟩ := mergeDNSLoopP_get_ge source today batch store
        ⟨0, 0, 0⟩ store.length hvac i r₁ hlen hg1
      have hno : tombFold source today (seenDomainsOf batch) r₁ = r₁ := by
        apply tombFold_of_not_cond
        rintro ⟨-, -, hlt, -⟩
        rw [g4] at hlt
        exact lt_irrefl today hlt
      rw [hno]
      exact ⟨g3, g4, g2, g1⟩
  refine ⟨partA, partB, ?_⟩
  intro hinv hmono r' hmem
  obtain ⟨n, hn⟩ := exists_getElem?_of_mem hmem
  by_cases hlt : n < store.length
  · have hsome : store[n]? = some (store[n]) := getElem?_eq_some_self hlt
    obtain ⟨r'', hg, hdisc, hls⟩ := partA n (store[n]) hsome
    rw [hn] at hg
    cases hg
    have hsmem : store[n] ∈ store := List.getElem_mem hlt
    rcases hls with hsame | htoday
    · rw [hdisc, hsame]
      exact hinv (store[n]) hsmem
    · rw [hdisc, htoday]
      exact hmono (store[n]) hsmem
  · obtain ⟨g1, g2, -, -⟩ := partB n r' hn (Nat.le_of_not_lt hlt)
    rw [g1, g2]

/-- The record sweep stops at the first quota-exceeded domain and keeps
everything collected before it. -/
theorem fetchRecordsLoop_quota (fetch : String → FetchRes)
    (preNames postNames : List String) (dqn : String)
    (hpre : ∀ x ∈ preNames, fetch x ≠ FetchRes.quotaExceeded)
    (hq : fetch dqn = FetchRes.quotaExceeded) :
    fetchRecordsLoop fetch (preNames ++ dqn :: postNames) =
      fetchRecordsLoop fetch preNames := by
  induction preNames with
  | nil => simp [fetchRecordsLoop, hq]
  | cons d ds ih =>
    have hd : fetch d ≠ FetchRes.quotaExceeded := hpre d (List.mem_cons_self d ds)
    have ih2 := ih fun x hx => hpre x (List.mem_cons_of_mem d hx)
    rw [List.cons_append]
    cases hf : fetch d with
    | ok recs => simp [fetchRecordsLoop, hf, ih2]
    | quotaExceeded => exact absurd hf hd
    | notFound => simp [fetchRecordsLoop, hf, ih2]
    | otherErr => simp [fetchRecordsLoop, hf, ih2]

/-- A response is treated as rate-limited (sleep `SleepOn429`, then retry)
exactly when its status is 429 or its body contains `TOO_MANY_REQUESTS`. -/
theorem classifyResp_rateLimited (status : Nat) (b429 bq : Bool) :
    classifyResp (.resp status b429 bq) = .retryOn .rateLimited true ↔
      (status = 429 ∨ b429 = true) := by
  constructor
  · intro h
    by_contra hn
    rw [classifyResp, if_neg hn] at h
    split at h
    · exact AttemptOutcome.noConfusion h
    · split at h
      · exact AttemptOutcome.noConfusion h
      · split at h
        · exact AttemptOutcome.noConfusion h
        · split at h
          · exact AttemptOutcome.noConfusion h
          · injection h with h1 h2
            exact Bool.noConfusion h2
  · intro h
    rw [classifyResp, if_pos h]

theorem retryGo_attempts_le (oracle : Nat → HttpResp) :
    ∀ (fuel i : Nat) (le0 : Option HErr) (sl : Nat),
      (retryGo oracle i fuel le0 sl).attempts ≤ i + fuel := by
  intro fuel
  induction fuel with
  | zero => intro i le0 sl; simp [retryGo]
  | succ f ih =>
    intro i le0 sl
    rw [retryGo]
    cases hc : classifyResp (oracle i) with
    | success => simp
    | giveUp e => simp
    | retryOn e s =>
      calc (retryGo oracle (i + 1) f (some e) (sl + if s then 1 else 0)).attempts
          ≤ (i + 1) + f := ih (i + 1) (some e) (sl + if s then 1 else 0)
        _ ≤ i + (f + 1) := by omega

theorem retryGo_allRateLimited (oracle : Nat → HttpResp) :
    ∀ (fuel i : Nat) (le0 : Option HErr) (sl : Nat),
      (∀ j, i ≤ j → j < i + fuel →
        classifyResp (oracle j) = .retryOn .rateLimited true) →
      retryGo oracle i fuel le0 sl =
        ⟨.error (.maxedOut (if fuel = 0 then le0 else some .rateLimited)),
          i + fuel, sl + fuel⟩ := by
  intro fuel
  induction fuel with
  | zero => intro i le0 sl _; simp [retryGo]
  | succ f ih =>
    intro i le0 sl h
    have hi := h i (le_refl i) (by omega)
    simp only [retryGo, hi, if_true]
    rw [ih (i + 1) (some HErr.rateLimited) (sl + 1)
      (fun j h1 h2 => h j (by omega) (by omega))]
    have h1 : (if f = 0 then some HErr.rateLimited else some HErr.rateLimited) =
        some HErr.rateLimited := by split <;> rfl
    have h2 : (if f + 1 = 0 then le0 else some HErr.rateLimited) =
        some HErr.rateLimited := if_neg (Nat.succ_ne_zero f)
    rw [h1, h2]
    simp only [RetryRun.mk.injEq]
    exact ⟨trivial, by omega, by omega⟩

/-- `processPage` over a page with one more entry. -/
theorem processPage_append (seen : List String) (acc : List GDomainInfo)
    (q : List GoDomEntry) (e : GoDomEntry) :
    processPage seen acc (q ++ [e]) = pageStep (processPage seen acc q) e := by
  rw [processPage, processPage, List.foldl_append, List.foldl_cons, List.foldl_nil]

/-- If the final entry of a full page is retained (valid fresh non-test
name), the code's marker for the next request is that entry's name — the
spec's rule holds in this case. -/
theorem marker_of_retained_last (seen : List String) (acc : List GDomainInfo)
    (q : List GoDomEntry) (e : GoDomEntry) (nm : String)
    (hname : e.name = some nm) (hne : nm ≠ "")
    (hfresh : (processPage seen acc q).1.contains nm = false)
    (htest : goIsTestDomain nm = false) :
    ((processPage seen acc (q ++ [e])).2.getLast?).map (·.domain) = some nm := by
  rw [processPage_append]
  rcases hs : processPage seen acc q with ⟨seen1, acc1⟩
  rw [hs] at hfresh
  rw [pageStep, hname]
  simp only [hne, if_false, hfresh, htest, Bool.false_eq_true]
  simp [List.getLast?_concat]

theorem fetchAllDomainsGo_cons (limit : Nat) (page : List GoDomEntry)
    (rest : List (List GoDomEntry)) (seen : List String) (acc : List GDomainInfo) :
    fetchAllDomainsGo limit (page :: rest) seen acc =
      if page.length = 0 then .ok (acc, [], true)
      else
        let s2 := processPage seen acc page
        if page.length < limit then .ok (s2.2, [], true)
        else
          match s2.2.getLast? with
          | none => .error ()
          | some last =>
            match fetchAllDomainsGo limit rest s2.1 s2.2 with
            | .error e => .error e
            | .ok r => .ok (r.1, some last.domain :: r.2.1, r.2.2) := rfl

/-- One page-entry step never shrinks the accumulated domain list. -/
theorem pageStep_acc_ne_nil (st : List String × List GDomainInfo)
    (e : GoDomEntry) (h : st.2 ≠ []) : (pageStep st e).2 ≠ [] := by
  rw [pageStep]
  cases hn : e.name with
  | none => exact h
  | some nm =>
    split
    · exact h
    · split
      · exact h
      · split
        · exact h
        · split
          · exact h
          · simp

/-- Processing a page never empties a non-empty accumulator. -/
theorem processPage_acc_ne_nil (seen : List String) (acc : List GDomainInfo)
    (page : List GoDomEntry) (h : acc ≠ []) :
    (processPage seen acc page).2 ≠ [] := by
  rw [processPage]
  have main : ∀ (st : List String × List GDomainInfo), st.2 ≠ [] →
      (page.foldl pageStep st).2 ≠ [] := by
    induction page with
    | nil => intro st hst; exact hst
    | cons e rest ih =>
      intro st hst
      rw [List.foldl_cons]
      exact ih (pageStep st e) (pageStep_acc_ne_nil st e hst)
  exact main (seen, acc) h

theorem exists_getLast?_of_ne_nil {l : List α} (h : l ≠ []) :
    ∃ a, l.getLast? = some a := by
  induction l with
  | nil => exact absurd rfl h
  | cons a as ih =>
    cases as with
    | nil => exact ⟨a, rfl⟩
    | cons b bs =>
      obtain ⟨x, hx⟩ := ih (by simp)
      exact ⟨x, by rw [List.getLast?_cons_cons]; exact hx⟩

/-- The panic path of `fetchAllDomains` (godaddy.go line 221): a full page
that leaves `allDomains` empty (every entry invalid, duplicate, or a test
domain) makes `allDomains[len(allDomains)-1]` index out of range — the
collection crashes instead of sending a further request. -/
theorem fetchAllDomainsGo_panics (limit : Nat) (page : List GoDomEntry)
    (rest : List (List GoDomEntry)) (seen : List String) (acc : List GDomainInfo)
    (h0 : page.length ≠ 0) (hfull : ¬ page.length < limit)
    (hempty : (processPage seen acc page).2 = []) :
    fetchAllDomainsGo limit (page :: rest) seen acc = .error () := by
  simp only [fetchAllDomainsGo_cons, h0, hfull, if_false, hempty,
    List.getLast?_nil]

/-- The pagination loop consumes pages only up to and including the first
short (or empty) one — later upstream responses are irrelevant and the loop
reports normal termination — provided at least one domain has already been
retained (so the marker computation after each full page cannot panic). -/
theorem fetchAllDomainsGo_stops (limit : Nat) :
    ∀ (pre junk : List (List GoDomEntry)) (short : List GoDomEntry)
      (seen : List String) (acc : List GDomainInfo),
      acc ≠ [] →
      (∀ p ∈ pre, p.length ≠ 0 ∧ ¬ p.length < limit) →
      (short.length < limit ∨ short.length = 0) →
      fetchAllDomainsGo limit (pre ++ short :: junk) seen acc =
        fetchAllDomainsGo limit (pre ++ [short]) seen acc ∧
      ∃ (doms : List GDomainInfo) (markers : List (Option String)),
        fetchAllDomainsGo limit (pre ++ short :: junk) seen acc =
          .ok (doms, markers, true) := by
  intro pre
  induction pre with
  | nil =>
    intro junk short seen acc _ _ hshort
    have hcase : short.length = 0 ∨ (short.length ≠ 0 ∧ short.length < limit) := by
      rcases hshort with hlt | hz
      · by_cases hz : short.length = 0
        · exact Or.inl hz
        · exact Or.inr ⟨hz, hlt⟩
      · exact Or.inl hz
    rcases hcase with hz | ⟨hnz, hlt⟩
    · refine ⟨?_, acc, [], ?_⟩ <;> simp [fetchAllDomainsGo_cons, hz]
    · refine ⟨?_, (processPage seen acc short).2, [], ?_⟩ <;>
        simp [fetchAllDomainsGo_cons, hnz, hlt]
  | cons p pre ih =>
    intro junk short seen acc hacc hpre hshort
    have hp := hpre p (List.mem_cons_self p pre)
    have hacc2 : (processPage seen acc p).2 ≠ [] :=
      processPage_acc_ne_nil seen acc p hacc
    obtain ⟨last, hlast⟩ := exists_getLast?_of_ne_nil hacc2
    have ih2 := ih junk short (processPage seen acc p).1 (processPage seen acc p).2
      hacc2 (fun q hq => hpre q (List.mem_cons_of_mem p hq)) hshort
    obtain ⟨doms, markers, hok⟩ := ih2.2
    refine ⟨?_, doms, some last.domain :: markers, ?_⟩
    · simp only [List.cons_append, fetchAllDomainsGo_cons, hp.1, hp.2, if_false,
        hlast, ih2.1]
    · simp only [List.cons_append, fetchAllDomainsGo_cons, hp.1, hp.2, if_false,
        hlast, hok]

/-! ## Claim theorems -/

/-- C1 (amended claim): after a successful `MergeDNSRecords(src, Batch)`,
every pre-existing DNS record with `source = src`, `status = "active"`,
parent domain among the batch domains, signature not occurring in the batch,
and `last_seen < today` has `status = "removed"`; and every pre-existing
record whose parent domain is not among the batch domains is left completely
unchanged.  (The amendment adds the `last_seen < today` condition that the
tombstone `UPDATE` of merger.go line 177 carries; without it the claim fails,
see the counterexample.) -/
theorem C1_dns_scoped_tombstone_amended (oracle : DbOracle) (source : String)
    (today : Int) (batch : List GoDNSRecord) (store : DNSStore)
    (st' : DNSStore) (stats : MergeStats) (post : DNSStore)
    (h : mergeDNSRecords oracle source today batch store = (.ok (st', stats), post)) :
    (∀ (i : Nat) (r : DNSRow), store[i]? = some r →
      r.source = source → r.status = "active" →
      (∃ x ∈ batch, x.domain = r.domain) →
      (∀ x ∈ batch, ¬(x.domain = r.domain ∧ x.subdomain = r.subdomain ∧
        x.recordType = r.recordType ∧ x.data = r.data)) →
      r.lastSeen < today →
      st'[i]? = some { r with status := "removed" }) ∧
    (∀ (i : Nat) (r : DNSRow), store[i]? = some r →
      (∀ x ∈ batch, x.domain ≠ r.domain) →
      st'[i]? = some r) := by
  obtain ⟨hres, -⟩ := mergeDNSRecords_ok oracle source today batch store (st', stats) post h
  have hst : st' = (mergeDNSLoopP source today batch store ⟨0, 0, 0⟩).1.map
      (tombFold source today (seenDomainsOf batch)) := by
    have h1 := congrArg Prod.fst hres
    simpa [mergeDNSRecordsP, dnsTombstoneLoopP_fst] using h1
  constructor
  · intro i r hr hsrc hact hdom hsig hlt
    have hnm : ∀ x ∈ batch, dnsMatch source x r = false := by
      intro x hx
      cases h2 : dnsMatch source x r with
      | false => rfl
      | true =>
        rw [dnsMatch_iff] at h2
        exact absurd ⟨h2.1.symm, h2.2.1.symm, h2.2.2.1.symm, h2.2.2.2.1.symm⟩
          (hsig x hx)
    have hloop := mergeDNSLoopP_get_untouched source today batch store ⟨0, 0, 0⟩ i r hr hnm
    rw [hst, List.getElem?_map, hloop, Option.map_some']
    rw [tombFold_of_cond source today (seenDomainsOf batch) r
      ⟨hsrc, hact, hlt, ?_⟩]
    rw [mem_seenDomainsOf]
    obtain ⟨x, hx, hxd⟩ := hdom
    exact ⟨x, hx, hxd⟩
  · intro i r hr hnd
    have hnm : ∀ x ∈ batch, dnsMatch source x r = false := by
      intro x hx
      cases h2 : dnsMatch source x r with
      | false => rfl
      | true =>
        rw [dnsMatch_iff] at h2
        exact absurd h2.1.symm (hnd x hx)
    have hloop := mergeDNSLoopP_get_untouched source today batch store ⟨0, 0, 0⟩ i r hr hnm
    rw [hst, List.getElem?_map, hloop, Option.map_some']
    rw [tombFold_of_not_cond]
    rintro ⟨-, -, -, hmem⟩
    rw [mem_seenDomainsOf] at hmem
    obtain ⟨x, hx, hxd⟩ := hmem
    exact hnd x hx hxd

/-- C1 counterexample: the claim as stated (without `last_seen < today`) is
false.  Pre-state: one record `www.a.com A 1.2.3.4` from source `S`, active,
`last_seen = 5` (already observed today); batch: one record in the same
parent domain `a.com` with a different signature; `today = 5`.  The claim
demands the pre-existing record become `removed`; the committed store still
holds it with `status = "active"`. -/
theorem C1_counterexample :
    (mergeDNSRecords okOracle "S" 5
      [⟨"a.com", "mail", "A", "5.6.7.8", 0, 0, none⟩]
      [⟨"a.com", "www", "A", "1.2.3.4", 0, 0, "S", "active", 0, 5, none⟩]).2[0]? =
      some ⟨"a.com", "www", "A", "1.2.3.4", 0, 0, "S", "active", 0, 5, none⟩ ∧
    ("active" : String) ≠ "removed" := by
  exact ⟨by decide, by decide⟩

/-- C2 (amended claim): after a successful `MergeDomains(src, Batch)` on a
store satisfying the `UNIQUE(domain, registrar)` constraint, each batch
element has exactly one row with its identity, and that row is active with
`last_seen = today` (hence no batch domain is `removed`); and every
pre-existing domain row with `registrar = src`, `status = "active"`, name not
in the batch, and `last_seen < today` is flipped to `removed`.  (The
amendment adds the `last_seen < today` condition of merger.go line 94.) -/
theorem C2_domains_merge_amended (oracle : DbOracle) (source : String)
    (today : Int) (batch : List GoDomain) (store : DomainStore)
    (st' : DomainStore) (stats : MergeStats) (post : DomainStore)
    (hU : domStoreUnique store)
    (h : mergeDomains oracle source today batch store = (.ok (st', stats), post)) :
    (∀ d ∈ batch, domHasExactlyOne source today d st') ∧
    (∀ (i : Nat) (r : DomainRow), store[i]? = some r →
      r.registrar = source → r.status = "active" →
      (∀ d ∈ batch, d.domain ≠ r.domain) → r.lastSeen < today →
      st'[i]? = some { r with status := "removed" }) := by
  obtain ⟨hres, -⟩ := mergeDomains_ok oracle source today batch store (st', stats) post h
  have hst : st' = (mergeDomainsLoopP source today batch store ⟨0, 0, 0⟩).1.map
      (domainTombstone source today) := by
    have h1 := congrArg Prod.fst hres
    simpa [mergeDomainsP] using h1
  constructor
  · intro d hd
    rw [hst]
    exact domHasExactlyOne_map_tombstone source today d _
      (mergeDomainsLoopP_exactlyOne source today batch store ⟨0, 0, 0⟩ hU d hd)
  · intro i r hr hreg hact hnin hlt
    have hnm : ∀ d ∈ batch, domMatch source d r = false := by
      intro d hd
      cases h2 : domMatch source d r with
      | false => rfl
      | true =>
        rw [domMatch_iff] at h2
        exact absurd h2.1.symm (hnin d hd)
    have hloop := mergeDomainsLoopP_get_untouched source today batch store ⟨0, 0, 0⟩ i r hr hnm
    rw [hst, List.getElem?_map, hloop, Option.map_some',
      domainTombstone_of_cond source today r ⟨hreg, hact, hlt⟩]

/-- C2 counterexample: the claim as stated is false.  Pre-state: one domain
`old.com` from source `S`, active, `last_seen = 5` (already observed today);
batch `[new.com]`; `today = 5`.  The claim demands `old.com` become
`removed`; the committed store still holds it `active`. -/
theorem C2_counterexample :
    (mergeDomains okOracle "S" 5 [⟨"new.com", none, none⟩]
      [⟨"old.com", "S", "active", none, 0, 5, none⟩]).2[0]? =
      some ⟨"old.com", "S", "active", none, 0, 5, none⟩ ∧
    ("active" : String) ≠ "removed" := by
  exact ⟨by decide, by decide⟩

/-- C3: each merge operation is atomic.  If any database step fails (the
oracle may fail the initial `BeginTx`, any per-row lookup/insert/update, the
tombstone update(s), or the commit), the visible store is exactly the
pre-call store; on success the visible store is exactly the committed merge
result — no partial batch is ever visible. -/
theorem C3_merge_atomicity :
    (∀ (oracle : DbOracle) (source : String) (today : Int)
       (batch : List GoDomain) (store post : DomainStore) (e : Unit),
       mergeDomains oracle source today batch store = (.error e, post) →
       post = store) ∧
    (∀ (oracle : DbOracle) (source : String) (today : Int)
       (batch : List GoDomain) (store post : DomainStore)
       (res : DomainStore × MergeStats),
       mergeDomains oracle source today batch store = (.ok res, post) →
       post = res.1) ∧
    (∀ (oracle : DbOracle) (source : String) (today : Int)
       (batch : List GoDNSRecord) (store post : DNSStore) (e : Unit),
       mergeDNSRecords oracle source today batch store = (.error e, post) →
       post = store) ∧
    (∀ (oracle : DbOracle) (source : String) (today : Int)
       (batch : List GoDNSRecord) (store post : DNSStore)
       (res : DNSStore × MergeStats),
       mergeDNSRecords oracle source today batch store = (.ok res, post) →
       post = res.1) := by
  refine ⟨?_, ?_, ?_, ?_⟩
  · intro oracle source today batch store post e h
    exact mergeDomains_error oracle source today batch store e post h
  · intro oracle source today batch store post res h
    exact (mergeDomains_ok oracle source today batch store res post h).2
  · intro oracle source today batch store post e h
    exact mergeDNSRecords_error oracle source today batch store e post h
  · intro oracle source today batch store post res h
    exact (mergeDNSRecords_ok oracle source today batch store res post h).2

/-- C3 witness: a merge whose tombstone update fails (operation 3 of the
transaction) rolls back — the visible store is the pre-call store even though
the transaction had already inserted the batch row; and a fully successful
DNS merge makes exactly the committed store visible. -/
theorem C3_witness :
    mergeDomains (fun n => n == 3) "S" 5 [⟨"a.com", none, none⟩]
      [⟨"b.com", "S", "active", none, 0, 3, none⟩] =
      (.error (), [⟨"b.com", "S", "active", none, 0, 3, none⟩]) ∧
    ([⟨"b.com", "S", "active", none, 0, 3, none⟩] : DomainStore) =
      [⟨"b.com", "S", "active", none, 0, 3, none⟩] ∧
    (mergeDNSRecords okOracle "S" 5 [⟨"a.com", "", "A", "1.2.3.4", 300, 0, none⟩] []).2 =
      [⟨"a.com", "", "A", "1.2.3.4", 300, 0, "S", "active", 5, 5, none⟩] := by
  refine ⟨rfl, ?_, ?_⟩
  · exact C3_merge_atomicity.1 (fun n => n == 3) "S" 5 [⟨"a.com", none, none⟩]
      [⟨"b.com", "S", "active", none, 0, 3, none⟩]
      [⟨"b.com", "S", "active", none, 0, 3, none⟩] () rfl
  · have h := C3_merge_atomicity.2.2.2 okOracle "S" 5
      [⟨"a.com", "", "A", "1.2.3.4", 300, 0, none⟩] []
      (mergeDNSRecords okOracle "S" 5 [⟨"a.com", "", "A", "1.2.3.4", 300, 0, none⟩] []).2
      ([⟨"a.com", "", "A", "1.2.3.4", 300, 0, "S", "active", 5, 5, none⟩], ⟨1, 0, 0⟩)
      rfl
    rw [h]

/-- C1 witness: concrete run discharging the amended theorem's hypotheses.
`www.a.com` (last seen day 3, before `today = 5`, signature absent from the
batch) is tombstoned; the record under `b.com` (domain not in the batch) is
untouched. -/
theorem C1_amended_witness :
    ([⟨"a.com", "www", "A", "1.2.3.4", 0, 0, "S", "removed", 0, 3, none⟩,
      ⟨"b.com", "www", "A", "9.9.9.9", 0, 0, "S", "active", 0, 3, none⟩,
      ⟨"a.com", "mail", "A", "5.6.7.8", 0, 0, "S", "active", 5, 5, none⟩] :
        DNSStore)[0]? =
      some ⟨"a.com", "www", "A", "1.2.3.4", 0, 0, "S", "removed", 0, 3, none⟩ ∧
    ([⟨"a.com", "www", "A", "1.2.3.4", 0, 0, "S", "removed", 0, 3, none⟩,
      ⟨"b.com", "www", "A", "9.9.9.9", 0, 0, "S", "active", 0, 3, none⟩,
      ⟨"a.com", "mail", "A", "5.6.7.8", 0, 0, "S", "active", 5, 5, none⟩] :
        DNSStore)[1]? =
      some ⟨"b.com", "www", "A", "9.9.9.9", 0, 0, "S", "active", 0, 3, none⟩ := by
  have H := C1_dns_scoped_tombstone_amended okOracle "S" 5
    [⟨"a.com", "mail", "A", "5.6.7.8", 0, 0, none⟩]
    [⟨"a.com", "www", "A", "1.2.3.4", 0, 0, "S", "active", 0, 3, none⟩,
     ⟨"b.com", "www", "A", "9.9.9.9", 0, 0, "S", "active", 0, 3, none⟩]
    [⟨"a.com", "www", "A", "1.2.3.4", 0, 0, "S", "removed", 0, 3, none⟩,
     ⟨"b.com", "www", "A", "9.9.9.9", 0, 0, "S", "active", 0, 3, none⟩,
     ⟨"a.com", "mail", "A", "5.6.7.8", 0, 0, "S", "active", 5, 5, none⟩]
    ⟨1, 0, 1⟩
    [⟨"a.com", "www", "A", "1.2.3.4", 0, 0, "S", "removed", 0, 3, none⟩,
     ⟨"b.com", "www", "A", "9.9.9.9", 0, 0, "S", "active", 0, 3, none⟩,
     ⟨"a.com", "mail", "A", "5.6.7.8", 0, 0, "S", "active", 5, 5, none⟩]
    rfl
  exact ⟨H.1 0 ⟨"a.com", "www", "A", "1.2.3.4", 0, 0, "S", "active", 0, 3, none⟩
      (by decide) rfl rfl (by decide) (by decide) (by decide),
    H.2 1 ⟨"b.com", "www", "A", "9.9.9.9", 0, 0, "S", "active", 0, 3, none⟩
      (by decide) (by decide)⟩

/-- C2 witness: `gone.com` (last seen day 3, not in the batch) is tombstoned
by a successful merge with batch `[fresh.com]` on day 5. -/
theorem C2_amended_witness :
    ([⟨"gone.com", "S", "removed", none, 0, 3, none⟩,
      ⟨"fresh.com", "S", "active", none, 5, 5, none⟩] : DomainStore)[0]? =
      some ⟨"gone.com", "S", "removed", none, 0, 3, none⟩ := by
  have H := C2_domains_merge_amended okOracle "S" 5 [⟨"fresh.com", none, none⟩]
    [⟨"gone.com", "S", "active", none, 0, 3, none⟩]
    [⟨"gone.com", "S", "removed", none, 0, 3, none⟩,
     ⟨"fresh.com", "S", "active", none, 5, 5, none⟩]
    ⟨1, 0, 1⟩
    [⟨"gone.com", "S", "removed", none, 0, 3, none⟩,
     ⟨"fresh.com", "S", "active", none, 5, 5, none⟩]
    (domStoreUnique_singleton _) rfl
  exact H.2 0 ⟨"gone.com", "S", "active", none, 0, 3, none⟩ (by decide) rfl rfl
    (by decide) (by decide)

/-- C4: `discovery_date` is write-once and bounded by `last_seen`.  In both
merges, every pre-existing row keeps its `discovery_date` exactly (the update
`SET` list omits it) while `last_seen` either stays or becomes `today`; every
freshly inserted row (a row at a position past the pre-call store, i.e. one
first inserted by this merge) gets `discovery_date = last_seen = today`; and
`discovery_date ≤ last_seen` holds for every row after the merge, provided it
held before and the merge's `today` is no earlier than any stored
`discovery_date` (clock monotonicity across merges). -/
theorem C4_discovery_write_once :
    (∀ (oracle : DbOracle) (source : String) (today : Int)
       (batch : List GoDomain) (store st' : DomainStore) (stats : MergeStats)
       (post : DomainStore),
       mergeDomains oracle source today batch store = (.ok (st', stats), post) →
       (∀ (i : Nat) (r : DomainRow), store[i]? = some r →
         ∃ r', st'[i]? = some r' ∧ r'.discoveryDate = r.discoveryDate ∧
           (r'.lastSeen = r.lastSeen ∨ r'.lastSeen = today)) ∧
       (∀ (i : Nat) (r' : DomainRow), st'[i]? = some r' → store.length ≤ i →
         r'.discoveryDate = today ∧ r'.lastSeen = today) ∧
       ((∀ r ∈ store, r.discoveryDate ≤ r.lastSeen) →
        (∀ r ∈ store, r.discoveryDate ≤ today) →
        ∀ r' ∈ st', r'.discoveryDate ≤ r'.lastSeen)) ∧
    (∀ (oracle : DbOracle) (source : String) (today : Int)
       (batch : List GoDNSRecord) (store st' : DNSStore) (stats : MergeStats)
       (post : DNSStore),
       mergeDNSRecords oracle source today batch store = (.ok (st', stats), post) →
       (∀ (i : Nat) (r : DNSRow), store[i]? = some r →
         ∃ r', st'[i]? = some r' ∧ r'.discoveryDate = r.discoveryDate ∧
           (r'.lastSeen = r.lastSeen ∨ r'.lastSeen = today)) ∧
       (∀ (i : Nat) (r' : DNSRow), st'[i]? = some r' → store.length ≤ i →
         r'.discoveryDate = today ∧ r'.lastSeen = today) ∧
       ((∀ r ∈ store, r.discoveryDate ≤ r.lastSeen) →
        (∀ r ∈ store, r.discoveryDate ≤ today) →
        ∀ r' ∈ st', r'.discoveryDate ≤ r'.lastSeen)) := by
  constructor
  · intro oracle source today batch store st' stats post h
    obtain ⟨pa, pb, pc⟩ :=
      mergeDomains_discovery oracle source today batch store st' stats post h
    refine ⟨?_, ?_, pc⟩
    · intro i r hr
      obtain ⟨r', h1, h2, h3, -⟩ := pa i r hr
      exact ⟨r', h1, h2, h3⟩
    · intro i r' hg hlen
      obtain ⟨h1, h2, -, -⟩ := pb i r' hg hlen
      exact ⟨h1, h2⟩
  · intro oracle source today batch store st' stats post h
    obtain ⟨pa, pb, pc⟩ :=
      mergeDNSRecords_discovery oracle source today batch store st' stats post h
    refine ⟨pa, ?_, pc⟩
    intro i r' hg hlen
    obtain ⟨h1, h2, -, -⟩ := pb i r' hg hlen
    exact ⟨h1, h2⟩

/-- C4 witness: an update on day 5 of a domain discovered on day 2 keeps
`discovery_date = 2 ≤ last_seen = 5`, and a first insert of a DNS record on
day 7 stamps both dates 7. -/
theorem C4_witness :
    (⟨"a.com", "S", "active", some 9, 2, 5, none⟩ : DomainRow).discoveryDate ≤
      (⟨"a.com", "S", "active", some 9, 2, 5, none⟩ : DomainRow).lastSeen ∧
    (⟨"a.com", "www", "A", "1.2.3.4", 60, 0, "S", "active", 7, 7, none⟩ :
        DNSRow).discoveryDate = 7 := by
  constructor
  · exact (C4_discovery_write_once.1 okOracle "S" 5 [⟨"a.com", some 9, none⟩]
      [⟨"a.com", "S", "active", none, 2, 3, none⟩]
      [⟨"a.com", "S", "active", some 9, 2, 5, none⟩] ⟨0, 1, 0⟩
      [⟨"a.com", "S", "active", some 9, 2, 5, none⟩] rfl).2.2
      (by decide) (by decide) _ (by decide)
  · exact ((C4_discovery_write_once.2 okOracle "S" 7
      [⟨"a.com", "www", "A", "1.2.3.4", 60, 0, none⟩] []
      [⟨"a.com", "www", "A", "1.2.3.4", 60, 0, "S", "active", 7, 7, none⟩]
      ⟨1, 0, 0⟩
      [⟨"a.com", "www", "A", "1.2.3.4", 60, 0, "S", "active", 7, 7, none⟩]
      rfl).2.1 0 _ (by decide) (by decide)).1

/-- C7 (amended claim): in both merge operations `today` is the current
calendar date **in the process's local time zone** (`time.Now()` without
`.UTC()`), equal to the UTC calendar date exactly when the zone offset is
zero.  It is captured once at operation start, and that single value stamps
every insert's `discovery_date`/`last_seen`, is the only new value any
update's `last_seen` can take, and is the value the tombstone comparison
`last_seen < today` uses (a row can only become `removed` if its `last_seen`
was below that same value). -/
theorem C7_today_amended :
    (∀ c : GoClock, c.tzOffsetSec = 0 → goTodayLocal c = utcToday c) ∧
    (∀ (oracle : DbOracle) (c : GoClock) (source : String)
       (batch : List GoDomain) (store st' : DomainStore) (stats : MergeStats)
       (post : DomainStore),
       mergeDomainsAt oracle c source batch store = (.ok (st', stats), post) →
       (∀ (i : Nat) (r' : DomainRow), st'[i]? = some r' → store.length ≤ i →
         r'.discoveryDate = goTodayLocal c ∧ r'.lastSeen = goTodayLocal c) ∧
       (∀ (i : Nat) (r r' : DomainRow), store[i]? = some r → st'[i]? = some r' →
         (r'.lastSeen = r.lastSeen ∨ r'.lastSeen = goTodayLocal c) ∧
         (r'.status = "removed" → r.status = "removed" ∨
           r.lastSeen < goTodayLocal c))) ∧
    (∀ (oracle : DbOracle) (c : GoClock) (source : String)
       (batch : List GoDNSRecord) (store st' : DNSStore) (stats : MergeStats)
       (post : DNSStore),
       mergeDNSRecordsAt oracle c source batch store = (.ok (st', stats), post) →
       ∀ (i : Nat) (r' : DNSRow), st'[i]? = some r' → store.length ≤ i →
         r'.discoveryDate = goTodayLocal c ∧ r'.lastSeen = goTodayLocal c) := by
  refine ⟨?_, ?_, ?_⟩
  · intro c h0
    rw [goTodayLocal, utcToday, h0, add_zero]
  · intro oracle c source batch store st' stats post h
    have h2 : mergeDomains oracle source (goTodayLocal c) batch store =
        (.ok (st', stats), post) := h
    obtain ⟨pa, pb, -⟩ := mergeDomains_discovery oracle source (goTodayLocal c)
      batch store st' stats post h2
    constructor
    · intro i r' hg hlen
      obtain ⟨h1, h3, -, -⟩ := pb i r' hg hlen
      exact ⟨h1, h3⟩
    · intro i r r' hr hg
      obtain ⟨r'', hg2, -, hls, hrem⟩ := pa i r hr
      rw [hg] at hg2
      cases hg2
      exact ⟨hls, hrem⟩
  · intro oracle c source batch store st' stats post h
    have h2 : mergeDNSRecords oracle source (goTodayLocal c) batch store =
        (.ok (st', stats), post) := h
    obtain ⟨-, pb, -⟩ := mergeDNSRecords_discovery oracle source (goTodayLocal c)
      batch store st' stats post h2
    intro i r' hg hlen
    obtain ⟨h1, h3, -, -⟩ := pb i r' hg hlen
    exact ⟨h1, h3⟩

/-- C7 counterexample: the claim as stated ("today is the current UTC
calendar date") is false.  At unix second 0 in a zone one hour west of UTC
(offset -3600: `time.Now()` renders 1969-12-31, UTC is 1970-01-01), a merge
stamps the inserted row with the local day index -1 while the UTC day is 0. -/
theorem C7_counterexample :
    (mergeDomainsAt okOracle ⟨0, -3600⟩ "S" [⟨"a.com", none, none⟩] []).2 =
      [⟨"a.com", "S", "active", none, -1, -1, none⟩] ∧
    goTodayLocal ⟨0, -3600⟩ = -1 ∧
    utcToday ⟨0, -3600⟩ = 0 ∧
    (-1 : Int) ≠ 0 := by
  exact ⟨by decide, by decide, by decide, by decide⟩

/-- C7 witness: with a zero offset the local and UTC dates agree, and a merge
at clock ⟨0, 0⟩ stamps its inserted row with `goTodayLocal ⟨0, 0⟩`. -/
theorem C7_amended_witness :
    goTodayLocal ⟨86400, 0⟩ = utcToday ⟨86400, 0⟩ ∧
    (⟨"a.com", "S", "active", none, 0, 0, none⟩ : DomainRow).discoveryDate =
      goTodayLocal ⟨0, 0⟩ := by
  constructor
  · exact C7_today_amended.1 ⟨86400, 0⟩ rfl
  · exact ((C7_today_amended.2.1 okOracle ⟨0, 0⟩ "S" [⟨"a.com", none, none⟩] []
      [⟨"a.com", "S", "active", none, 0, 0, none⟩] ⟨1, 0, 0⟩
      [⟨"a.com", "S", "active", none, 0, 0, none⟩] rfl).1 0 _
      (by decide) (by decide)).1

/-- A collector result with no fatal error never makes the orchestrator fail
when the database is healthy, and `found` counts domains plus records. -/
theorem runCollectorService_okOracle (source : String) (today : Int)
    (res : CollectResult) (dS : DomainStore) (rS : DNSStore)
    (hc : res.collectErr = none) :
    (runCollectorService okOracle okOracle source today res dS rS).1 = none ∧
    (runCollectorService okOracle okOracle source today res dS rS).2.2.2.found =
      res.domains.length + res.dnsRecords.length := by
  rcases res with ⟨doms, recs, ce⟩
  simp only at hc
  cases hc
  by_cases h1 : doms.length > 0 <;> by_cases h2 : recs.length > 0 <;>
    simp [runCollectorService, h1, h2, mergeDomains_okOracle, mergeDNSRecords_okOracle]

/-- C5 counterexample: the claim as stated is false on the schema and the
code.  `migrationSQL` declares no unique constraint on
`sync_status(collector_name)` (its only uniqueness constraint is the `id`
primary key) and no `CREATE UNIQUE INDEX` at all, hence no partial-unique
index `(collector_name) WHERE status = 'running'`; and a `TryAcquire` whose
INSERT fails returns an error (`"create sync record"`), not a clean
not-acquired. -/
theorem C5_counterexample :
    (migrationUniqueConstraints.all fun u =>
      !(u.tableName == "sync_status" && u.columns == ["collector_name"])) = true ∧
    (migrationIndexes.all fun i => !i.isUnique) = true ∧
    (migrationIndexes.all fun i => i.filterCond == none) = true ∧
    (tryAcquire false false true "godaddy_dns" "dns_records" "manual" 1 []).1 =
      ⟨none, false, some "create sync record"⟩ := by
  exact ⟨by decide, by decide, by decide, by decide⟩

/-- C5 (amended claim): the store does **not** enforce a partial-unique
running index; within one process `TryAcquire` itself prevents a second
running row: it returns not-acquired without error and inserts nothing when
the in-memory mutex is held or when it observes an existing running row; a
failing INSERT leaves the table unchanged and returns `acquired = false`
together with an error; and a successful acquire on a table with no running
row for the collector leaves exactly one such row. -/
theorem C5_lock_amended :
    (∀ (ins : Bool) (name sv tt : String) (newId : Nat) (tbl : List SyncRow),
      hasRunning tbl name = true →
      tryAcquire false false ins name sv tt newId tbl = (⟨none, false, none⟩, tbl)) ∧
    (∀ (name sv tt : String) (newId : Nat) (tbl : List SyncRow),
      hasRunning tbl name = false →
      tryAcquire false false true name sv tt newId tbl =
        (⟨none, false, some "create sync record"⟩, tbl)) ∧
    (∀ (name sv tt : String) (newId : Nat) (tbl : List SyncRow),
      hasRunning tbl name = false →
      runningCount (tryAcquire false false false name sv tt newId tbl).2 name = 1) ∧
    (∀ (sf ins : Bool) (name sv tt : String) (newId : Nat) (tbl : List SyncRow),
      tryAcquire true sf ins name sv tt newId tbl = (⟨none, false, none⟩, tbl)) := by
  refine ⟨?_, ?_, ?_, ?_⟩
  · intro ins name sv tt newId tbl hrun
    simp [tryAcquire, hrun]
  · intro name sv tt newId tbl hrun
    simp [tryAcquire, hrun]
  · intro name sv tt newId tbl hrun
    have hz : tbl.countP
        (fun r => r.collectorName == name && r.status == "running") = 0 := by
      rw [List.countP_eq_zero]
      intro r hr hp
      have hany : (tbl.any fun r => r.collectorName == name && r.status == "running") = true :=
        List.any_eq_true.mpr ⟨r, hr, hp⟩
      rw [hasRunning] at hrun
      rw [hany] at hrun
      exact Bool.noConfusion hrun
    simp only [tryAcquire, hrun, Bool.false_eq_true, if_false]
    rw [runningCount, List.countP_append, hz]
    simp
  · intro sf ins name sv tt newId tbl
    simp [tryAcquire]

/-- C5 witness: a table with a running row for the collector makes
`TryAcquire` return not-acquired, without error and without inserting. -/
theorem C5_amended_witness :
    tryAcquire false false false "godaddy_dns" "dns_records" "scheduled" 7
      [⟨1, "godaddy_dns", "dns_records", "running", "manual"⟩] =
      (⟨none, false, none⟩,
       [⟨1, "godaddy_dns", "dns_records", "running", "manual"⟩]) :=
  C5_lock_amended.1 false "godaddy_dns" "dns_records" "scheduled" 7
    [⟨1, "godaddy_dns", "dns_records", "running", "manual"⟩] (by decide)

/-- C6: when the per-domain record fetch reports quota exhaustion at some
domain, `Collect` stops enumerating further domains, returns every domain and
all records collected before the quota hit, and returns no fatal error; the
orchestrator therefore reports no error and the Sync Run is released with
status `"completed"` carrying the partial `found` count. -/
theorem C6_quota_partial_completed (fetch : String → FetchRes)
    (pre post2 : List GoDomain) (dq : GoDomain) (source : String) (today : Int)
    (dS : DomainStore) (rS : DNSStore)
    (hpre : ∀ x ∈ pre, fetch x.domain ≠ FetchRes.quotaExceeded)
    (hq : fetch dq.domain = FetchRes.quotaExceeded) :
    (goDaddyCollectRecords fetch (pre ++ dq :: post2)).domains =
      pre ++ dq :: post2 ∧
    (goDaddyCollectRecords fetch (pre ++ dq :: post2)).dnsRecords =
      fetchRecordsLoop fetch (pre.map (·.domain)) ∧
    (goDaddyCollectRecords fetch (pre ++ dq :: post2)).collectErr = none ∧
    (runCollectorService okOracle okOracle source today
      (goDaddyCollectRecords fetch (pre ++ dq :: post2)) dS rS).1 = none ∧
    schedulerRunStatus (runCollectorService okOracle okOracle source today
      (goDaddyCollectRecords fetch (pre ++ dq :: post2)) dS rS).1 = "completed" ∧
    (runCollectorService okOracle okOracle source today
      (goDaddyCollectRecords fetch (pre ++ dq :: post2)) dS rS).2.2.2.found =
      (pre ++ dq :: post2).length +
        (fetchRecordsLoop fetch (pre.map (·.domain))).length := by
  have hq2 : fetchRecordsLoop fetch ((pre ++ dq :: post2).map (·.domain)) =
      fetchRecordsLoop fetch (pre.map (·.domain)) := by
    rw [List.map_append, List.map_cons]
    refine fetchRecordsLoop_quota fetch (pre.map (·.domain))
      (post2.map (·.domain)) dq.domain ?_ hq
    intro x hx
    obtain ⟨d, hd, rfl⟩ := List.mem_map.mp hx
    exact hpre d hd
  obtain ⟨ho, hf⟩ := runCollectorService_okOracle source today
    (goDaddyCollectRecords fetch (pre ++ dq :: post2)) dS rS rfl
  refine ⟨rfl, ?_, rfl, ho, ?_, ?_⟩
  · rw [goDaddyCollectRecords]
    exact hq2
  · rw [ho]; rfl
  · rw [hf]
    rw [goDaddyCollectRecords]
    simp only [hq2]

/-- C6 witness: three domains; records for `a.com` fetched, quota hit at
`b.com`; the sync reports status `"completed"` and the partial record set. -/
theorem C6_witness :
    (goDaddyCollectRecords
      (fun d => if d = "a.com" then FetchRes.ok [⟨"a.com", "www", "A", "1.2.3.4", 0, 0, none⟩]
        else if d = "b.com" then FetchRes.quotaExceeded else FetchRes.ok [])
      ([⟨"a.com", none, none⟩] ++ ⟨"b.com", none, none⟩ :: [⟨"c.com", none, none⟩])).dnsRecords =
      [⟨"a.com", "www", "A", "1.2.3.4", 0, 0, none⟩] ∧
    schedulerRunStatus (runCollectorService okOracle okOracle "GoDaddy" 5
      (goDaddyCollectRecords
        (fun d => if d = "a.com" then FetchRes.ok [⟨"a.com", "www", "A", "1.2.3.4", 0, 0, none⟩]
          else if d = "b.com" then FetchRes.quotaExceeded else FetchRes.ok [])
        ([⟨"a.com", none, none⟩] ++ ⟨"b.com", none, none⟩ :: [⟨"c.com", none, none⟩])) [] []).1 =
      "completed" := by
  have H := C6_quota_partial_completed
    (fun d => if d = "a.com" then FetchRes.ok [⟨"a.com", "www", "A", "1.2.3.4", 0, 0, none⟩]
      else if d = "b.com" then FetchRes.quotaExceeded else FetchRes.ok [])
    [⟨"a.com", none, none⟩] [⟨"c.com", none, none⟩] ⟨"b.com", none, none⟩
    "GoDaddy" 5 [] [] (by decide) (by decide)
  exact ⟨H.2.1, H.2.2.2.2.1⟩

/-- C10: a sweep that returns zero domains, zero DNS records, and no error
makes the orchestrator invoke neither merge: it reports no error, the stats
are all zero, and both inventory stores are returned exactly as passed in —
in particular no active row of the source is tombstoned, even though the
successful sweep observed nothing.  (Had the merges been invoked with empty
batches, their unscoped/scoped tombstones would have run; the
`len(...) > 0` guards in `RunCollector` are what protect the inventory.) -/
theorem C10_empty_sweep_no_merge (oD oR : DbOracle) (source : String)
    (today : Int) (domStore : DomainStore) (dnsStore : DNSStore) :
    runCollectorService oD oR source today ⟨[], [], none⟩ domStore dnsStore =
      (none, domStore, dnsStore, ⟨0, 0, 0, 0⟩) := rfl

/-- C8 counterexample: the claim as stated is false.  With the default
`MaxRetries = 5` and every attempt answered 429, the client performs 6
attempts (not "up to 5"), sleeps `SleepOn429` six times, and then gives up
with a max-retries error — so the rate-limited attempts were counted toward
the decision to give up (each 429 `continue` still advances the shared
`attempt <= MaxRetries` loop counter). -/
theorem C8_counterexample :
    doWithRetry 5 (fun _ => HttpResp.resp 429 false false) =
      ⟨.error (.maxedOut (some .rateLimited)), 6, 6⟩ := rfl

/-- C8 (amended claim): a response with status 429 — or any response whose
body contains `TOO_MANY_REQUESTS` — makes the client sleep `SleepOn429` and
retry (and exactly those responses do); but every such attempt consumes the
shared attempt budget: the client never makes more than `MaxRetries + 1`
attempts, and if all budgeted attempts are rate-limited it gives up with a
max-retries error after exactly `MaxRetries + 1` attempts and as many
`SleepOn429` sleeps. -/
theorem C8_retry_amended :
    (∀ (status : Nat) (b429 bq : Bool),
      classifyResp (.resp status b429 bq) = .retryOn .rateLimited true ↔
        (status = 429 ∨ b429 = true)) ∧
    (∀ (m : Nat) (oracle : Nat → HttpResp),
      (doWithRetry m oracle).attempts ≤ m + 1) ∧
    (∀ (m : Nat) (oracle : Nat → HttpResp),
      (∀ j, j ≤ m → classifyResp (oracle j) = .retryOn .rateLimited true) →
      doWithRetry m oracle =
        ⟨.error (.maxedOut (some .rateLimited)), m + 1, m + 1⟩) := by
  refine ⟨classifyResp_rateLimited, ?_, ?_⟩
  · intro m oracle
    have := retryGo_attempts_le oracle (m + 1) 0 none 0
    simpa [doWithRetry] using this
  · intro m oracle h
    rw [doWithRetry]
    rw [retryGo_allRateLimited oracle (m + 1) 0 none 0
      (fun j h1 h2 => h j (by omega))]
    rw [if_neg (Nat.succ_ne_zero m)]
    simp

/-- C8 witness: two rate-limited attempts exhaust `MaxRetries = 1`. -/
theorem C8_amended_witness :
    doWithRetry 1 (fun _ => HttpResp.resp 429 false false) =
      ⟨.error (.maxedOut (some .rateLimited)), 2, 2⟩ :=
  C8_retry_amended.2.2 1 (fun _ => HttpResp.resp 429 false false)
    (fun _ _ => rfl)

/-- C9 counterexample: the claim as stated is false.  With page size 2, page
one `[a.com, b.com]` and page two `[c.com, b.com]` (its final entry a
duplicate that `fetchAllDomains` skips), the code sends markers
`[b.com, c.com]` — the marker after page two is `c.com`, the last *retained*
domain, not `b.com`, the last domain returned on that page as the claim
requires. -/
theorem C9_counterexample :
    fetchAllDomainsGo 2
      [[⟨some "a.com", none⟩, ⟨some "b.com", none⟩],
       [⟨some "c.com", none⟩, ⟨some "b.com", none⟩], []] [] [] =
      .ok ([⟨"a.com", none⟩, ⟨"b.com", none⟩, ⟨"c.com", none⟩],
        [some "b.com", some "c.com"], true) ∧
    markersPerSpec 2
      [[⟨some "a.com", none⟩, ⟨some "b.com", none⟩],
       [⟨some "c.com", none⟩, ⟨some "b.com", none⟩], []] =
      [some "b.com", some "b.com"] ∧
    (some "c.com" : Option String) ≠ some "b.com" := by
  exact ⟨rfl, by decide, by decide⟩

/-- C9 (amended claim): the marker sent for the next page is the name of the
last **retained** domain accumulated so far (`allDomains[len-1]`); it equals
the final domain of the previous page exactly when that final entry is
retained — a valid, fresh, non-test name.  When a full page leaves the
retained accumulator empty, the marker index access panics (index out of
range) and the collection crashes.  Otherwise — once at least one domain has
been retained — pagination stops at the first page that is empty or shorter
than the configured page size, and everything the upstream would return
after that page is never requested. -/
theorem C9_marker_pagination_amended :
    (∀ (seen : List String) (acc : List GDomainInfo) (q : List GoDomEntry)
       (e : GoDomEntry) (nm : String),
       e.name = some nm → nm ≠ "" →
       (processPage seen acc q).1.contains nm = false →
       goIsTestDomain nm = false →
       ((processPage seen acc (q ++ [e])).2.getLast?).map (·.domain) = some nm) ∧
    (∀ (limit : Nat) (page : List GoDomEntry) (rest : List (List GoDomEntry))
       (seen : List String) (acc : List GDomainInfo),
       page.length ≠ 0 → ¬ page.length < limit →
       (processPage seen acc page).2 = [] →
       fetchAllDomainsGo limit (page :: rest) seen acc = .error ()) ∧
    (∀ (limit : Nat) (pre junk : List (List GoDomEntry))
       (short : List GoDomEntry) (seen : List String) (acc : List GDomainInfo),
       acc ≠ [] →
       (∀ p ∈ pre, p.length ≠ 0 ∧ ¬ p.length < limit) →
       (short.length < limit ∨ short.length = 0) →
       fetchAllDomainsGo limit (pre ++ short :: junk) seen acc =
         fetchAllDomainsGo limit (pre ++ [short]) seen acc ∧
       ∃ (doms : List GDomainInfo) (markers : List (Option String)),
         fetchAllDomainsGo limit (pre ++ short :: junk) seen acc =
           .ok (doms, markers, true)) :=
  ⟨fun seen acc q e nm h1 h2 h3 h4 =>
    marker_of_retained_last seen acc q e nm h1 h2 h3 h4,
   fun limit page rest seen acc h0 hfull hempty =>
    fetchAllDomainsGo_panics limit page rest seen acc h0 hfull hempty,
   fun limit pre junk short seen acc h0 h1 h2 =>
    fetchAllDomainsGo_stops limit pre junk short seen acc h0 h1 h2⟩

/-- C9 witness: a retained final entry does give the spec's marker; a full
page of test-prefixed entries panics; and once a domain has been retained, a
short second page ends the pagination regardless of later upstream pages. -/
theorem C9_amended_witness :
    ((processPage [] [] ([⟨some "a.com", none⟩] ++ [⟨some "x.com", none⟩])).2.getLast?).map
      (·.domain) = some "x.com" ∧
    fetchAllDomainsGo 1 [[⟨some "test-x.com", none⟩]] [] [] = .error () ∧
    fetchAllDomainsGo 2
      ([[⟨some "a.com", none⟩, ⟨some "b.com", none⟩]] ++
        [⟨some "z.com", none⟩] :: [[⟨some "j.com", none⟩]]) ["a0.com"]
      [⟨"a0.com", none⟩] =
      fetchAllDomainsGo 2
        ([[⟨some "a.com", none⟩, ⟨some "b.com", none⟩]] ++ [[⟨some "z.com", none⟩]])
        ["a0.com"] [⟨"a0.com", none⟩] := by
  refine ⟨?_, ?_, ?_⟩
  · exact C9_marker_pagination_amended.1 [] [] [⟨some "a.com", none⟩]
      ⟨some "x.com", none⟩ "x.com" rfl (by decide) (by decide) (by decide)
  · exact C9_marker_pagination_amended.2.1 1 [⟨some "test-x.com", none⟩] []
      [] [] (by decide) (by decide) (by decide)
  · exact (C9_marker_pagination_amended.2.2 2
      [[⟨some "a.com", none⟩, ⟨some "b.com", none⟩]] [[⟨some "j.com", none⟩]]
      [⟨some "z.com", none⟩] ["a0.com"] [⟨"a0.com", none⟩]
      (by decide) (by decide) (by decide)).1

end DomainSnapshot
